import Mathlib

/-!
Verification of the woz2dsk sector decoder (src/woz2dsk.py) against its
natural-language specification.

The Python source is shallowly embedded below.  Machine bytes are `Nat`s;
`bytearray` is `List Nat` with a guarded store `bset` that reflects Python's
`IndexError` (index out of range) and `ValueError` (value not a byte, as
raised by a `bytearray` item assignment).  Fallible code returns
`Except DiskErr` values, with the Python exception hierarchy mirrored by the
`DiskErr` inductive and the `SectorException` subclass test
`isSectorException`.  A track's nibble cursor — an external collaborator
produced by the wozardry library, not part of this repository — is a
`List Nat` consumed from the front; its `find`/`next` operations are
modelled from the spec (see `seekPast`, `nextR`).
-/

namespace Woz

/-- The Python exception taxonomy of woz2dsk.  The constructors carrying a
`(track, sector)` pair correspond to subclasses of `SectorException`;
`invalidDataNibble` corresponds to `InvalidDataNibble` (a `DiskException`
but not a `SectorException`); `streamEnd` models `StopIteration` from an
exhausted nibble cursor; `assertionError` and `valueError` model the
corresponding Python built-ins. -/
inductive DiskErr where
  | streamEnd : DiskErr
  | invalidDataNibble (nibble : Nat) : DiskErr
  | trackMismatch (track track_found sector : Nat) : DiskErr
  | addressChecksumMismatch (track sector : Nat) : DiskErr
  | addressEpilogueNotFound (track sector : Nat) : DiskErr
  | dataSyncBytesNotFound (track sector : Nat) : DiskErr
  | dataPrologueNotFound (track sector : Nat) : DiskErr
  | badData (track sector : Nat) : DiskErr
  | dataChecksumMismatch (track sector : Nat) : DiskErr
  | dataEpilogueNotFound (track sector : Nat) : DiskErr
  | assertionError : DiskErr
  | valueError : DiskErr
deriving DecidableEq, Repr

/-- Which `DiskErr`s are `SectorException`s (caught by `Track.sectors`). -/
def isSectorException : DiskErr → Bool
  | .trackMismatch _ _ _ => true
  | .addressChecksumMismatch _ _ => true
  | .addressEpilogueNotFound _ _ => true
  | .dataSyncBytesNotFound _ _ => true
  | .dataPrologueNotFound _ _ => true
  | .badData _ _ => true
  | .dataChecksumMismatch _ _ => true
  | .dataEpilogueNotFound _ _ => true
  | _ => false

/-- The `.sector` attribute of a `SectorException` (0 for the others,
which never reach a use of this accessor). -/
def sectorOf : DiskErr → Nat
  | .trackMismatch _ _ s => s
  | .addressChecksumMismatch _ s => s
  | .addressEpilogueNotFound _ s => s
  | .dataSyncBytesNotFound _ s => s
  | .dataPrologueNotFound _ s => s
  | .badData _ s => s
  | .dataChecksumMismatch _ s => s
  | .dataEpilogueNotFound _ s => s
  | _ => 0

/-- Source: `def decode_44(xx, yy): return ((xx & 0b01010101) << 1) + (yy & 0b01010101)`. -/
def decode_44 (xx yy : Nat) : Nat :=
  ((xx &&& 0b01010101) <<< 1) + (yy &&& 0b01010101)

/-- The claim's reading of `decode_44` ("every even bit of hi and lo is
masked out before combining", i.e. the odd-indexed bits are the ones kept),
written with the same combining structure as the source.  Used only to
refute that reading. -/
def decode_44_claimed (xx yy : Nat) : Nat :=
  ((xx &&& 0b10101010) <<< 1) + (yy &&& 0b10101010)

/-- Table `ENCODE_62`: maps 6-bit data to its 6,2-encoded disk nibble. -/
def ENCODE_62 : List Nat :=
  [0x96, 0x97, 0x9a, 0x9b, 0x9d, 0x9e, 0x9f, 0xa6, 0xa7,
   0xab, 0xac, 0xad, 0xae, 0xaf, 0xb2, 0xb3, 0xb4, 0xb5, 0xb6,
   0xb7, 0xb9, 0xba, 0xbb, 0xbc, 0xbd, 0xbe, 0xbf, 0xcb,
   0xcd, 0xce, 0xcf, 0xd3, 0xd6, 0xd7, 0xd9, 0xda, 0xdb,
   0xdc, 0xdd, 0xde, 0xdf, 0xe5, 0xe6, 0xe7, 0xe9, 0xea,
   0xeb, 0xec, 0xed, 0xee, 0xef, 0xf2, 0xf3, 0xf4, 0xf5, 0xf6,
   0xf7, 0xf9, 0xfa, 0xfb, 0xfc, 0xfd, 0xfe, 0xff]

/-- Index of the first occurrence of `n` in a list, offset by `k`. -/
def indexOf62 (n : Nat) : List Nat → Nat → Option Nat
  | [], _ => none
  | v :: t, k => if v = n then some k else indexOf62 n t (k + 1)

/-- Dictionary `DECODE_62_MAP`: the inverse of `ENCODE_62`
(disk nibble → 6-bit value). -/
def DECODE_62_MAP (n : Nat) : Option Nat :=
  indexOf62 n ENCODE_62 0

/-- Source: `def swap_bits(bits): return ((bits & 0b1) << 1) ^ ((bits & 0b10) >> 1)`. -/
def swap_bits (bits : Nat) : Nat :=
  ((bits &&& 0b1) <<< 1) ^^^ ((bits &&& 0b10) >>> 1)

/-- Function `decode_62_nibble`: dictionary lookup, raising `InvalidDataNibble` on a
disk byte outside the 6-and-2 alphabet. -/
def decode_62_nibble (nibble : Nat) : Except DiskErr Nat :=
  match DECODE_62_MAP nibble with
  | some v => .ok v
  | none => .error (.invalidDataNibble nibble)

/-- Guarded `bytearray` item store: `IndexError` when the index is out of
range, `ValueError` when the stored value is not a byte. -/
def bset (l : List Nat) (i v : Nat) : Except DiskErr (List Nat) :=
  if i < l.length then
    if v < 256 then .ok (l.set i v) else .error .valueError
  else .error .assertionError

/-- First loop of `decode_62` (`for idx, nibble in enumerate(data[:86])`),
threading the output bytearray, the running checksum and the loop index. -/
def pass1 : List Nat → Nat → Nat → List Nat → Except DiskErr (List Nat × Nat)
  | output, rc, _, [] => .ok (output, rc)
  | output, rc, idx, nibble :: rest =>
    match decode_62_nibble nibble with
    | .error e => .error e
    | .ok d =>
      let rc' := rc ^^^ d
      match bset output idx (output.getD idx 0 ^^^ swap_bits ((rc' >>> 0) &&& 0b11)) with
      | .error e => .error e
      | .ok o1 =>
        match bset o1 (idx + 86) (o1.getD (idx + 86) 0 ^^^ swap_bits ((rc' >>> 2) &&& 0b11)) with
        | .error e => .error e
        | .ok o2 =>
          match (if idx < 84 then
                   bset o2 (idx + 86 * 2) (o2.getD (idx + 86 * 2) 0 ^^^ swap_bits ((rc' >>> 4) &&& 0b11))
                 else .ok o2) with
          | .error e => .error e
          | .ok o3 => pass1 o3 rc' (idx + 1) rest

/-- Second loop of `decode_62` (`for idx, nibble in enumerate(data[86:])`). -/
def pass2 : List Nat → Nat → Nat → List Nat → Except DiskErr (List Nat × Nat)
  | output, rc, _, [] => .ok (output, rc)
  | output, rc, idx, nibble :: rest =>
    match decode_62_nibble nibble with
    | .error e => .error e
    | .ok d =>
      let rc' := rc ^^^ d
      match bset output idx (output.getD idx 0 ^^^ (rc' <<< 2)) with
      | .error e => .error e
      | .ok o1 => pass2 o1 rc' (idx + 1) rest

/-- Function `decode_62(data)`: 342 disk nibbles → (256-byte payload, final running
checksum).  The `assert len(data) == 342` is the `assertionError` branch. -/
def decode_62 (data : List Nat) : Except DiskErr (List Nat × Nat) :=
  if data.length = 342 then
    match pass1 (List.replicate 256 0) 0 0 (data.take 86) with
    | .error e => .error e
    | .ok (output, rc) => pass2 output rc 0 (data.drop 86)
  else .error .assertionError

/-- A decoded `Sector` object. -/
structure SectorD where
  volume_num : Option Nat
  track_num : Option Nat
  sector_num : Nat
  data : List Nat
deriving DecidableEq, Repr

/-- Constructor `Sector.__init__`: raises `ValueError` exactly when `data` is truthy
(non-`None` and non-empty) and its length differs from 256; a falsy `data`
(`None` or empty) is replaced by 256 zero bytes. -/
def Sector.init (volume_num track_num : Option Nat) (sector_num : Nat)
    (data : Option (List Nat)) : Except DiskErr SectorD :=
  let truthy : Bool := match data with
    | none => false
    | some d => !d.isEmpty
  if truthy ∧ (data.getD []).length ≠ 256 then
    .error .valueError
  else
    .ok ⟨volume_num, track_num, sector_num,
         if truthy then data.getD [] else List.replicate 256 0⟩

/-- Table `Sector.DOS_33_ORDER`. -/
def DOS_33_ORDER : List Nat :=
  [0x0, 0xd, 0xb, 0x9, 0x7, 0x5, 0x3, 0x1, 0xe, 0xc, 0xa, 0x8, 0x6, 0x4, 0x2, 0xf]

/-- A `Track`'s configuration: its physical number and the four framing
markers (defaulting to the module-level `DEFAULT_*` constants). -/
structure TrackCfg where
  track_num : Nat
  address_prologue : List Nat := [0xd5, 0xaa, 0x96]
  address_epilogue : List Nat := [0xde, 0xaa, 0xeb]
  data_prologue : List Nat := [0xd5, 0xaa, 0xad]
  data_epilogue : List Nat := [0xde, 0xaa, 0xeb]
deriving DecidableEq, Repr

/-- The default-configured track with physical number `t`. -/
def tcDefault (t : Nat) : TrackCfg := { track_num := t }

/-- Modelled from the spec: the cursor's `next()` — the next disk byte of
the external NibbleCursor collaborator, fatal (`StopIteration`) past the
end of the capture. -/
def nextR : List Nat → (Except DiskErr Nat) × List Nat
  | [] => (.error .streamEnd, [])
  | x :: t => (.ok x, t)

/-- Two cursor reads combined through `decode_44`, as in
`decode_44(next(self.track.nibble()), next(self.track.nibble()))`. -/
def read2_44 : List Nat → (Except DiskErr Nat) × List Nat
  | x :: y :: t => (.ok (decode_44 x y), t)
  | _ => (.error .streamEnd, [])

/-- Read exactly `n` nibbles (the `for _ in range(342): nibbles.append(...)`
loop). -/
def takeN : Nat → List Nat → (Except DiskErr (List Nat)) × List Nat
  | 0, s => (.ok [], s)
  | _ + 1, [] => (.error .streamEnd, [])
  | n + 1, x :: t =>
    match takeN n t with
    | (.ok xs, s') => (.ok (x :: xs), s')
    | (.error e, s') => (.error e, s')

/-- The sliding-window loop body of `Track.find_within`: `seen` holds the
last `len(sequence)` nibbles (zero-padded initially); each iteration drops
`seen[0]`, appends one fresh nibble and compares against `sequence`. -/
def findWithinAux (seen sequence : List Nat) : Nat → List Nat → (Except DiskErr Bool) × List Nat
  | 0, s => (.ok false, s)
  | _ + 1, [] => (.error .streamEnd, [])
  | cnt + 1, x :: t =>
    let seen' := seen.tail ++ [x]
    if seen' = sequence then (.ok true, t)
    else findWithinAux seen' sequence cnt t

/-- Method `Track.find_within(sequence, num_nibbles)`. -/
def find_within (sequence : List Nat) (num_nibbles : Nat) (s : List Nat) :
    (Except DiskErr Bool) × List Nat :=
  findWithinAux (List.replicate sequence.length 0) sequence num_nibbles s

/-- Modelled from the spec: the external cursor's `seekTo` /
`self.track.find(marker)` — advance past the first occurrence of the marker
byte sequence; the stream is exhausted (fatal) when the marker never
occurs. -/
def seekPast (marker : List Nat) : List Nat → Option (List Nat)
  | [] => if marker.isEmpty then some [] else none
  | x :: t =>
    if marker.isPrefixOf (x :: t) then some ((x :: t).drop marker.length)
    else seekPast marker t

/-- Tail of `Track.next_sector` from the data-field epilogue search onward
(the source's last `find_within` call, the unconditional skip of the third
epilogue nibble, and the `Sector(...)` construction). -/
def dataEpilogueStep (tc : TrackCfg) (volume track_num sector_num : Nat)
    (data : List Nat) (s : List Nat) : (Except DiskErr SectorD) × List Nat :=
  match find_within (tc.data_epilogue.take 2) 2 s with
  | (.error e, s') => (.error e, s')
  | (.ok false, s') => (.error (.dataEpilogueNotFound tc.track_num sector_num), s')
  | (.ok true, s') =>
    match nextR s' with
    | (.error e, s'') => (.error e, s'')
    | (.ok _, s'') =>
      match Sector.init (some volume) (some track_num) sector_num (some data) with
      | .error e => (.error e, s'')
      | .ok sec => (.ok sec, s'')

/-- Method `Track.next_sector` from the sync-byte search onward (everything after
the address-field epilogue has been consumed). -/
def afterAddrEpilogue (tc : TrackCfg) (volume track_num sector_num : Nat)
    (s : List Nat) : (Except DiskErr SectorD) × List Nat :=
  match find_within [0xff] 20 s with
  | (.error e, s') => (.error e, s')
  | (.ok false, s') => (.error (.dataSyncBytesNotFound tc.track_num sector_num), s')
  | (.ok true, s') =>
    match find_within tc.data_prologue 20 s' with
    | (.error e, s2) => (.error e, s2)
    | (.ok false, s2) => (.error (.dataPrologueNotFound tc.track_num sector_num), s2)
    | (.ok true, s2) =>
      match takeN 342 s2 with
      | (.error e, s3) => (.error e, s3)
      | (.ok nibbles, s3) =>
        match decode_62 nibbles with
        | .error (.invalidDataNibble _) => (.error (.badData tc.track_num sector_num), s3)
        | .error e => (.error e, s3)
        | .ok (data, checksum) =>
          match nextR s3 with
          | (.error e, s4) => (.error e, s4)
          | (.ok cn, s4) =>
            match decode_62_nibble cn with
            | .error e => (.error e, s4)
            | .ok expected_checksum =>
              if checksum ≠ expected_checksum then
                (.error (.dataChecksumMismatch tc.track_num sector_num), s4)
              else dataEpilogueStep tc volume track_num sector_num data s4

/-- Method `Track.next_sector` from the address-field epilogue search onward (the
`find_within(self.address_epilogue[:2], 2)` call, the unconditional skip of
the third epilogue nibble, and the rest of the protocol). -/
def addrEpilogueStep (tc : TrackCfg) (volume track_num sector_num : Nat)
    (s : List Nat) : (Except DiskErr SectorD) × List Nat :=
  match find_within (tc.address_epilogue.take 2) 2 s with
  | (.error e, s') => (.error e, s')
  | (.ok false, s') => (.error (.addressEpilogueNotFound tc.track_num sector_num), s')
  | (.ok true, s') =>
    match nextR s' with
    | (.error e, s'') => (.error e, s'')
    | (.ok _, s'') => afterAddrEpilogue tc volume track_num sector_num s''

/-- Method `Track.next_sector`: one sector-read attempt.  Returns the outcome and
the cursor position where the attempt left off (where the raised exception
propagated, for failures). -/
def nextSector (tc : TrackCfg) (s0 : List Nat) : (Except DiskErr SectorD) × List Nat :=
  match seekPast tc.address_prologue s0 with
  | none => (.error .streamEnd, [])
  | some s =>
    match read2_44 s with
    | (.error e, s1) => (.error e, s1)
    | (.ok volume, s1) =>
      match read2_44 s1 with
      | (.error e, s2) => (.error e, s2)
      | (.ok track_num, s2) =>
        match read2_44 s2 with
        | (.error e, s3) => (.error e, s3)
        | (.ok sector_num, s3) =>
          if tc.track_num ≠ track_num then
            (.error (.trackMismatch tc.track_num track_num sector_num), s3)
          else
            match read2_44 s3 with
            | (.error e, s4) => (.error e, s4)
            | (.ok checksum, s4) =>
              if checksum ≠ (volume ^^^ tc.track_num ^^^ sector_num) then
                (.error (.addressChecksumMismatch tc.track_num sector_num), s4)
              else
                addrEpilogueStep tc volume track_num sector_num s4

/-- Association-list lookup mirroring `dict.get` on the `sectors` map
(`Nat` keys, `Option SectorD` values — `none` is Python's `None` entry). -/
def alookup : List (Nat × Option SectorD) → Nat → Option (Option SectorD)
  | [], _ => none
  | (k, v) :: t, n => if k = n then some v else alookup t n

/-- Method `Track.sectors`: the scan loop, with explicit fuel for the `while True`.
`none` means the fuel ran out before the loop broke (no verdict);
`some (.error e)` means a non-`SectorException` escaped the loop (in Python
it would propagate out of `Track.sectors`); `some (.ok m)` is a normal
`break` returning the accumulated map. -/
def sectorsFuel (tc : TrackCfg) : Nat → List (Nat × Option SectorD) → List Nat →
    Option (Except DiskErr (List (Nat × Option SectorD)))
  | 0, _, _ => none
  | fuel + 1, secs, s =>
    match nextSector tc s with
    | (.ok sec, s') =>
      if (alookup secs sec.sector_num).isSome then some (.ok secs)
      else sectorsFuel tc fuel (secs ++ [(sec.sector_num, some sec)]) s'
    | (.error e, s') =>
      if isSectorException e then
        if (alookup secs (sectorOf e)).isSome then some (.ok secs)
        else sectorsFuel tc fuel (secs ++ [(sectorOf e, none)]) s'
      else some (.error e)

/-- The outcome of one `next_sector` attempt as observed by the
`Track.sectors` loop. -/
inductive Outcome where
  | ok (sec : SectorD) : Outcome
  | err (e : DiskErr) : Outcome
deriving DecidableEq, Repr

/-- The sector number an attempt contributes to the loop's bookkeeping. -/
def outNum : Outcome → Nat
  | .ok sec => sec.sector_num
  | .err e => sectorOf e

/-- The map entry an attempt inserts when its number is new. -/
def outEntry : Outcome → Nat × Option SectorD
  | .ok sec => (sec.sector_num, some sec)
  | .err e => (sectorOf e, none)

/-- The sequence of `next_sector` outcomes a cursor yields (cut off at a
non-`SectorException`, after which the loop cannot continue, or at the
fuel bound). -/
def attemptsOf (tc : TrackCfg) : Nat → List Nat → List Outcome
  | 0, _ => []
  | fuel + 1, s =>
    match nextSector tc s with
    | (.ok sec, s') => .ok sec :: attemptsOf tc fuel s'
    | (.error e, s') =>
      .err e :: (if isSectorException e then attemptsOf tc fuel s' else [])

/-- The `Track.sectors` loop viewed as a function of the attempt outcomes
it consumes (same control flow as `sectorsFuel`, decoupled from the nibble
stream). -/
def sectorsOnTrace : List Outcome → List (Nat × Option SectorD) →
    Option (Except DiskErr (List (Nat × Option SectorD)))
  | [], _ => none
  | .ok sec :: rest, secs =>
    if (alookup secs sec.sector_num).isSome then some (.ok secs)
    else sectorsOnTrace rest (secs ++ [(sec.sector_num, some sec)])
  | .err e :: rest, secs =>
    if isSectorException e then
      if (alookup secs (sectorOf e)).isSome then some (.ok secs)
      else sectorsOnTrace rest (secs ++ [(sectorOf e, none)])
    else some (.error e)

/-- One sector slot of the output written by `main`'s inner loop:
`sector = sectors.get(sector_num); if not sector: sector = Sector(None,
track_num, sector_num); fp.write(sector.data)`. -/
def emitSector (secs : List (Nat × Option SectorD)) (track_num sector_num : Nat) : List Nat :=
  match alookup secs sector_num with
  | some (some sec) => sec.data
  | _ =>
    match Sector.init none (some track_num) sector_num none with
    | .ok sec => sec.data
    | .error _ => []

/-- The 4096 bytes `main` writes for one track: the 16 slots in
`DOS_33_ORDER`. -/
def writeTrackBytes (secs : List (Nat × Option SectorD)) (track_num : Nat) : List Nat :=
  (DOS_33_ORDER.map (emitSector secs track_num)).flatten

/-- The flat image `main` writes, as a function of each track's sector map
(`none` = `disk.seek` returned no track; `main` then uses an empty map). -/
def imageBytes (disk : Nat → Option (List (Nat × Option SectorD))) : List Nat :=
  ((List.range 35).map fun t =>
    writeTrackBytes (match disk t with | some m => m | none => []) t).flatten

/-- Whether `main`'s per-track processing sets `errors` for a present
track: a missing sector number in `set(range(16)) - sectors.keys()`, or a
falsy `sectors.get(sector_num)` in the write loop. -/
def trackDefect (secs : List (Nat × Option SectorD)) : Bool :=
  ((List.range 16).any fun s => (alookup secs s).isNone) ||
  (DOS_33_ORDER.any fun sn =>
    match alookup secs sn with
    | some (some _) => false
    | _ => true)

/-- Function `main`'s handling of track `t` of an outcome-level disk, condensed to
its effect on the `errors` flag: `some true`/`some false` when the track
is processed (missing track counts as an error), `none` when the scan loop
yields no verdict (fuel) or dies on an uncaught exception. -/
def trackStatus (disk : Nat → Option (List Outcome)) (t : Nat) : Option Bool :=
  match disk t with
  | none => some true
  | some tr =>
    match sectorsOnTrace tr [] with
    | some (.ok m) => some (trackDefect m)
    | _ => none

/-- The `errors` flag at the end of `main`'s track loop (hence the exit
status: `some true` = exit 1, `some false` = exit 0, `none` = the process
died or no verdict). -/
def mainExitErrorsO (disk : Nat → Option (List Outcome)) : Option Bool :=
  (List.range 35).foldl
    (fun acc t =>
      match acc, trackStatus disk t with
      | some e, some d => some (e || d)
      | _, _ => none)
    (some false)

/-- Running checksum after consuming the `k+1`-st of the decoded 6-bit
values `ds`, starting from `rc` (the prefix XOR). -/
def rcAt (rc : Nat) : List Nat → Nat → Nat
  | [], _ => rc
  | d :: _, 0 => rc ^^^ d
  | d :: t, k + 1 => rcAt (rc ^^^ d) t k

/-- Running checksum after consuming all of `ds`, starting from `rc`. -/
def rcFinal (rc : Nat) : List Nat → Nat
  | [] => rc
  | d :: t => rcFinal (rc ^^^ d) t

/-- The three stores one first-pass step performs on the output bytearray
(with the updated running checksum `rc'`). -/
def pass1Step (o : List Nat) (rc' idx : Nat) : List Nat :=
  let o1 := o.set idx (o.getD idx 0 ^^^ swap_bits ((rc' >>> 0) &&& 0b11))
  let o2 := o1.set (idx + 86) (o1.getD (idx + 86) 0 ^^^ swap_bits ((rc' >>> 2) &&& 0b11))
  if idx < 84 then
    o2.set (idx + 86 * 2) (o2.getD (idx + 86 * 2) 0 ^^^ swap_bits ((rc' >>> 4) &&& 0b11))
  else o2

/-- Pure (guard-free) version of `pass1`; `pass1` coincides with it on
alphabet-only input (see `pass1_eq_pure`). -/
def pass1Pure : List Nat → Nat → Nat → List Nat → List Nat × Nat
  | output, rc, _, [] => (output, rc)
  | output, rc, idx, d :: rest =>
    pass1Pure (pass1Step output (rc ^^^ d) idx) (rc ^^^ d) (idx + 1) rest

/-- Pure (guard-free) version of `pass2`. -/
def pass2Pure : List Nat → Nat → Nat → List Nat → List Nat × Nat
  | output, rc, _, [] => (output, rc)
  | output, rc, idx, d :: rest =>
    let rc' := rc ^^^ d
    pass2Pure (output.set idx (output.getD idx 0 ^^^ (rc' <<< 2))) rc' (idx + 1) rest

/-- Decode a whole nibble list through the 6-and-2 alphabet (`none` as soon
as one nibble is invalid). -/
def decodeList : List Nat → Option (List Nat)
  | [] => some []
  | n :: t =>
    match decode_62_nibble n, decodeList t with
    | .ok d, some ds => some (d :: ds)
    | _, _ => none

/-- Modelled from the spec: the per-step 2-bit group the conformant 6-and-2
encoder stores for output position `i` of the first pass (bit-swapped low
two bits of the payload bytes at `i`, `i+86` and — for `i < 84` —
`i+172`). -/
def auxNibble (p : List Nat) (i : Nat) : Nat :=
  swap_bits (p.getD i 0 &&& 0b11) |||
  (swap_bits (p.getD (i + 86) 0 &&& 0b11) <<< 2) |||
  ((if i < 84 then swap_bits (p.getD (i + 172) 0 &&& 0b11) else 0) <<< 4)

/-- Modelled from the spec: the 86 two-bit groups of the conformant
encoder's first region. -/
def auxList (p : List Nat) : List Nat :=
  (List.range 86).map (auxNibble p)

/-- Modelled from the spec: the 256 high-6-bit values of the conformant
encoder's second region. -/
def sixList (p : List Nat) : List Nat :=
  p.map fun b => b >>> 2

/-- Modelled from the spec: the 342 pre-XOR 6-bit values of the conformant
encoder — 86 two-bit groups followed by the 256 high-6-bit values. -/
def preNibbles (p : List Nat) : List Nat :=
  auxList p ++ sixList p

/-- XOR-chain a value sequence: each element is XORed with its predecessor
(seeded by `prev`), as the 6-and-2 encoder writes them to disk. -/
def chain (prev : Nat) : List Nat → List Nat
  | [] => []
  | x :: t => (prev ^^^ x) :: chain x t

/-- Last element of a list, or the seed for an empty list. -/
def lastFrom (p : Nat) : List Nat → Nat
  | [] => p
  | x :: t => lastFrom x t

/-- Modelled from the spec: a conformant 6-and-2 encoder — the 342 disk
nibbles written for a 256-byte payload (XOR-chained pre-values pushed
through the `ENCODE_62` alphabet). -/
def encode_62 (p : List Nat) : List Nat :=
  (chain 0 (preNibbles p)).map fun v => ENCODE_62.getD v 0

/-- Modelled from the spec: the trailing checksum nibble the conformant
encoder writes after the 342 data nibbles. -/
def encode_62_checksum (p : List Nat) : Nat :=
  ENCODE_62.getD (lastFrom 0 (preNibbles p)) 0

/-- Concrete valid address-field block for track 0: prologue, then
volume 0, track 0, sector 0, checksum 0 in 4-and-4 pairs. -/
def addrOkBlock : List Nat :=
  [0xd5, 0xaa, 0x96, 0xaa, 0xaa, 0xaa, 0xaa, 0xaa, 0xaa, 0xaa, 0xaa]

/-- Concrete address-field block for track 0 whose embedded track value is
1 and sector value is 3 (raises `TrackMismatch(0, 1, 3)`). -/
def badTrackBlock : List Nat :=
  [0xd5, 0xaa, 0x96, 0xaa, 0xaa, 0xaa, 0xab, 0xab, 0xab]

/-- Counterexample stream for the sector-map loop: two consecutive
`TrackMismatch(0, 1, 3)` attempts. -/
def c1Stream : List Nat := badTrackBlock ++ badTrackBlock

/-- Stream whose sector read is valid up to the data field but whose
trailing checksum nibble (`0x00`) is outside the 6-and-2 alphabet. -/
def c2Stream : List Nat :=
  addrOkBlock ++ [0xde, 0xaa, 0x00, 0xff, 0xd5, 0xaa, 0xad] ++
  List.replicate 342 0x96 ++ [0x00]

/-- Stream whose address-field epilogue appears after one garbage nibble —
within 20 nibbles of the cursor but not within the code's window of 2. -/
def c3Stream : List Nat := addrOkBlock ++ [0x01, 0xde, 0xaa]

/-- 256 zero bytes. -/
def zeros256 : List Nat := List.replicate 256 0

/-- Outcome trace used against the exit-status claim: the 16 sectors of a
track all decode, then one recoverable `TrackMismatch` failure whose sector
value collides with an already-read sector ends the revolution. -/
def c8Trace : List Outcome :=
  ((List.range 16).map fun k => Outcome.ok ⟨some 0, some 0, k, zeros256⟩) ++
  [Outcome.err (DiskErr.trackMismatch 0 1 0)]

/-- The outcome-level disk whose every track yields `c8Trace`. -/
def c8Disk : Nat → Option (List Outcome) := fun _ => some c8Trace

end Woz

namespace Woz

/-! ### Generic list helpers -/

theorem getD_set_self (l : List Nat) (i v : Nat) (h : i < l.length) :
    (l.set i v).getD i 0 = v := by
  show ((l.set i v).get? i).getD 0 = v
  rw [List.get?_set_eq_of_lt v h]
  rfl

theorem getD_set_other (l : List Nat) (i j v : Nat) (h : i ≠ j) :
    (l.set i v).getD j 0 = l.getD j 0 := by
  show ((l.set i v).get? j).getD 0 = (l.get? j).getD 0
  rw [List.get?_set_ne v l h]

theorem getD_lt_of_mem_lt (l : List Nat) (j : Nat) (h : ∀ e ∈ l, e < 256) :
    l.getD j 0 < 256 := by
  by_cases hj : j < l.length
  · rw [List.getD_eq_getElem l 0 hj]
    exact h _ (List.getElem_mem hj)
  · rw [List.getD_eq_default _ _ (Nat.le_of_not_lt hj)]
    omega

theorem mem_set_lt (l : List Nat) (i v : Nat) (hl : ∀ e ∈ l, e < 256) (hv : v < 256) :
    ∀ e ∈ l.set i v, e < 256 := by
  intro e he
  rcases List.mem_or_eq_of_mem_set he with h | h
  · exact hl _ h
  · omega

/-! ### Small bit facts -/

theorem xor_lt_256 {a b : Nat} (ha : a < 256) (hb : b < 256) : a ^^^ b < 256 :=
  Nat.xor_lt_two_pow (n := 8) ha hb

theorem xor_lt_64 {a b : Nat} (ha : a < 64) (hb : b < 64) : a ^^^ b < 64 :=
  Nat.xor_lt_two_pow (n := 6) ha hb

theorem and3_lt (x : Nat) : x &&& 0b11 < 4 :=
  Nat.lt_succ_of_le Nat.and_le_right

theorem swap_bits_lt (b : Nat) (h : b < 4) : swap_bits b < 4 := by
  interval_cases b <;> decide

theorem swap_bits_and3_lt (x : Nat) : swap_bits (x &&& 0b11) < 4 :=
  swap_bits_lt _ (and3_lt x)

/-! ### decode_44 bit-level facts -/

theorem testBit_two_mul_add (k : Nat) : ∀ A B : Nat,
    (∀ j, A.testBit (2 * j + 1) = false) → (∀ j, B.testBit (2 * j + 1) = false) →
    ((2 * A + B).testBit (2 * k + 1) = A.testBit (2 * k) ∧
     (2 * A + B).testBit (2 * k) = B.testBit (2 * k)) := by
  induction k with
  | zero =>
    intro A B hA hB
    have hB1 : B / 2 % 2 = 0 := by
      have := hB 0
      rw [show 2 * 0 + 1 = 0 + 1 by omega, Nat.testBit_add_one, Nat.testBit_zero] at this
      simpa using this
    constructor
    · rw [show 2 * 0 + 1 = 0 + 1 by omega, Nat.testBit_add_one, Nat.testBit_zero,
          Nat.testBit_zero]
      have hdiv : (2 * A + B) / 2 = A + B / 2 := by omega
      rw [hdiv]
      have : (A + B / 2) % 2 = A % 2 := by omega
      rw [this]
    · rw [show 2 * 0 = 0 by omega, Nat.testBit_zero, Nat.testBit_zero]
      have : (2 * A + B) % 2 = B % 2 := by omega
      rw [this]
  | succ k ih =>
    intro A B hA hB
    have hA1 : A / 2 % 2 = 0 := by
      have := hA 0
      rw [show 2 * 0 + 1 = 0 + 1 by omega, Nat.testBit_add_one, Nat.testBit_zero] at this
      simpa using this
    have hB1 : B / 2 % 2 = 0 := by
      have := hB 0
      rw [show 2 * 0 + 1 = 0 + 1 by omega, Nat.testBit_add_one, Nat.testBit_zero] at this
      simpa using this
    have hdiv4 : (2 * A + B) / 2 / 2 = 2 * (A / 2 / 2) + B / 2 / 2 := by omega
    have hA' : ∀ j, (A / 2 / 2).testBit (2 * j + 1) = false := by
      intro j
      have := hA (j + 1)
      rw [show 2 * (j + 1) + 1 = (2 * j + 1) + 1 + 1 by omega, Nat.testBit_add_one,
          Nat.testBit_add_one] at this
      exact this
    have hB' : ∀ j, (B / 2 / 2).testBit (2 * j + 1) = false := by
      intro j
      have := hB (j + 1)
      rw [show 2 * (j + 1) + 1 = (2 * j + 1) + 1 + 1 by omega, Nat.testBit_add_one,
          Nat.testBit_add_one] at this
      exact this
    obtain ⟨ih1, ih2⟩ := ih (A / 2 / 2) (B / 2 / 2) hA' hB'
    constructor
    · rw [show 2 * (k + 1) + 1 = (2 * k + 1) + 1 + 1 by omega, Nat.testBit_add_one,
          Nat.testBit_add_one, hdiv4, ih1,
          show 2 * (k + 1) = (2 * k) + 1 + 1 by omega, Nat.testBit_add_one,
          Nat.testBit_add_one]
    · rw [show 2 * (k + 1) = (2 * k) + 1 + 1 by omega, Nat.testBit_add_one,
          Nat.testBit_add_one, hdiv4, ih2, Nat.testBit_add_one, Nat.testBit_add_one]

theorem testBit_85_odd (j : Nat) : (0b01010101 : Nat).testBit (2 * j + 1) = false := by
  by_cases h : j < 4
  · interval_cases j <;> decide
  · apply Nat.testBit_lt_two_pow
    calc (0b01010101 : Nat) < 2 ^ 9 := by norm_num
    _ ≤ 2 ^ (2 * j + 1) := Nat.pow_le_pow_right (by norm_num) (by omega)

theorem and85_odd_bits (x : Nat) : ∀ j, (x &&& 0b01010101).testBit (2 * j + 1) = false := by
  intro j
  rw [Nat.testBit_and, testBit_85_odd, Bool.and_false]

/-! ### XOR-chain lemmas -/

theorem chain_length (l : List Nat) : ∀ p, (chain p l).length = l.length := by
  induction l with
  | nil => intro p; rfl
  | cons x t ih => intro p; simp [chain, ih]

theorem chain_append (a : List Nat) : ∀ p (b : List Nat),
    chain p (a ++ b) = chain p a ++ chain (lastFrom p a) b := by
  induction a with
  | nil => intro p b; rfl
  | cons x t ih => intro p b; simp [chain, lastFrom, ih]

theorem lastFrom_append (a : List Nat) : ∀ p (b : List Nat),
    lastFrom p (a ++ b) = lastFrom (lastFrom p a) b := by
  induction a with
  | nil => intro p b; rfl
  | cons x t ih => intro p b; simp [lastFrom, ih]

theorem rcAt_chain (l : List Nat) : ∀ r p k, k < l.length →
    rcAt r (chain p l) k = (r ^^^ p) ^^^ l.getD k 0 := by
  induction l with
  | nil => intro r p k hk; exact absurd hk (by simp)
  | cons x t ih =>
    intro r p k hk
    cases k with
    | zero => simp [chain, rcAt, Nat.xor_assoc]
    | succ k =>
      rw [chain, rcAt, ih (r ^^^ (p ^^^ x)) x k (by simpa using hk)]
      simp [Nat.xor_assoc]

theorem rcFinal_chain (l : List Nat) : ∀ r p,
    rcFinal r (chain p l) = (r ^^^ p) ^^^ lastFrom p l := by
  induction l with
  | nil => intro r p; simp [chain, rcFinal, lastFrom, Nat.xor_assoc]
  | cons x t ih =>
    intro r p
    rw [chain, rcFinal, ih (r ^^^ (p ^^^ x)) x, lastFrom]
    simp [Nat.xor_assoc]

theorem chain_lt_64 (l : List Nat) : ∀ p, p < 64 → (∀ x ∈ l, x < 64) →
    ∀ y ∈ chain p l, y < 64 := by
  induction l with
  | nil => intro p _ _ y hy; simp [chain] at hy
  | cons x t ih =>
    intro p hp hl y hy
    rw [chain] at hy
    rcases List.mem_cons.1 hy with h | h
    · subst h; exact xor_lt_64 hp (hl x (by simp))
    · exact ih x (hl x (by simp)) (fun z hz => hl z (by simp [hz])) y h

theorem lastFrom_lt_64 (l : List Nat) : ∀ p, p < 64 → (∀ x ∈ l, x < 64) →
    lastFrom p l < 64 := by
  induction l with
  | nil => intro p hp _; exact hp
  | cons x t ih =>
    intro p hp hl
    exact ih x (hl x (by simp)) (fun z hz => hl z (by simp [hz]))

theorem lastFrom_eq_getD (l : List Nat) : ∀ p, l ≠ [] →
    lastFrom p l = l.getD (l.length - 1) 0 := by
  induction l with
  | nil => intro p h; exact absurd rfl h
  | cons x t ih =>
    intro p _
    cases t with
    | nil => rfl
    | cons y u =>
      rw [lastFrom, ih x (by simp)]
      simp

/-! ### pass1Pure / pass2Pure invariants -/

theorem pass1Step_length (o : List Nat) (rc' idx : Nat) :
    (pass1Step o rc' idx).length = o.length := by
  rw [pass1Step]
  split <;> simp [List.length_set]

theorem pass1Pure_length (ds : List Nat) : ∀ o rc idx,
    ((pass1Pure o rc idx ds).1).length = o.length := by
  induction ds with
  | nil => intro o rc idx; rfl
  | cons d rest ih =>
    intro o rc idx
    rw [pass1Pure, ih, pass1Step_length]

theorem pass1Pure_rc (ds : List Nat) : ∀ o rc idx,
    (pass1Pure o rc idx ds).2 = rcFinal rc ds := by
  induction ds with
  | nil => intro o rc idx; rfl
  | cons d rest ih =>
    intro o rc idx
    rw [pass1Pure, rcFinal]
    exact ih _ _ _

theorem pass2Pure_length (ds : List Nat) : ∀ o rc idx,
    ((pass2Pure o rc idx ds).1).length = o.length := by
  induction ds with
  | nil => intro o rc idx; rfl
  | cons d rest ih =>
    intro o rc idx
    rw [pass2Pure, ih]
    simp [List.length_set]

theorem pass2Pure_rc (ds : List Nat) : ∀ o rc idx,
    (pass2Pure o rc idx ds).2 = rcFinal rc ds := by
  induction ds with
  | nil => intro o rc idx; rfl
  | cons d rest ih =>
    intro o rc idx
    rw [pass2Pure, rcFinal]
    exact ih _ _ _

end Woz

namespace Woz

theorem pass1Step_getD (o : List Nat) (rc' idx j : Nat) (ho : o.length = 256) (hidx : idx < 86) :
    (pass1Step o rc' idx).getD j 0 =
      ((o.getD j 0 ^^^ (if j = idx then swap_bits ((rc' >>> 0) &&& 0b11) else 0))
        ^^^ (if j = idx + 86 then swap_bits ((rc' >>> 2) &&& 0b11) else 0))
        ^^^ (if j = idx + 86 * 2 ∧ idx < 84 then swap_bits ((rc' >>> 4) &&& 0b11) else 0) := by
  have h1 : idx < o.length := by omega
  have h2 : idx + 86 < o.length := by omega
  have hne1 : idx ≠ idx + 86 := by omega
  rw [pass1Step]
  by_cases h84 : idx < 84
  · rw [if_pos h84]
    have h3 : idx + 86 * 2 < (o.set idx (o.getD idx 0 ^^^ swap_bits ((rc' >>> 0) &&& 0b11))).length := by
      simp [List.length_set]; omega
    by_cases hj1 : j = idx
    · subst hj1
      rw [getD_set_other _ _ _ _ (by omega), getD_set_other _ _ _ _ (by omega),
          getD_set_self _ _ _ h1, if_pos rfl, if_neg (by omega), if_neg (by omega)]
      simp
    · by_cases hj2 : j = idx + 86
      · subst hj2
        rw [getD_set_other _ _ _ _ (by omega), getD_set_self _ _ _ (by simp [List.length_set]; omega),
            getD_set_other _ _ _ _ (by omega), if_neg hj1, if_pos rfl, if_neg (by omega)]
        simp
      · by_cases hj3 : j = idx + 86 * 2
        · subst hj3
          rw [getD_set_self _ _ _ (by simp [List.length_set]; omega),
              getD_set_other _ _ _ _ (by omega), getD_set_other _ _ _ _ (by omega),
              if_neg hj1, if_neg hj2, if_pos ⟨rfl, h84⟩]
          simp
        · rw [getD_set_other _ _ _ _ (fun h => hj3 h.symm),
              getD_set_other _ _ _ _ (fun h => hj2 h.symm),
              getD_set_other _ _ _ _ (fun h => hj1 h.symm),
              if_neg hj1, if_neg hj2, if_neg (by tauto)]
          simp
  · rw [if_neg h84]
    by_cases hj1 : j = idx
    · subst hj1
      rw [getD_set_other _ _ _ _ (by omega), getD_set_self _ _ _ h1,
          if_pos rfl, if_neg (by omega), if_neg (by tauto)]
      simp
    · by_cases hj2 : j = idx + 86
      · subst hj2
        rw [getD_set_self _ _ _ (by simp [List.length_set]; omega),
            getD_set_other _ _ _ _ (by omega), if_neg hj1, if_pos rfl, if_neg (by tauto)]
        simp
      · rw [getD_set_other _ _ _ _ (fun h => hj2 h.symm),
            getD_set_other _ _ _ _ (fun h => hj1 h.symm),
            if_neg hj1, if_neg hj2, if_neg (by tauto)]
        simp

end Woz

namespace Woz

theorem pass1Pure_getD (ds : List Nat) : ∀ o rc idx j, o.length = 256 → idx + ds.length ≤ 86 →
    (pass1Pure o rc idx ds).1.getD j 0 =
      ((o.getD j 0
        ^^^ (if idx ≤ j ∧ j < idx + ds.length then
               swap_bits ((rcAt rc ds (j - idx) >>> 0) &&& 0b11) else 0))
        ^^^ (if idx + 86 ≤ j ∧ j < idx + ds.length + 86 then
               swap_bits ((rcAt rc ds (j - idx - 86) >>> 2) &&& 0b11) else 0))
        ^^^ (if idx + 86 * 2 ≤ j ∧ j < min (idx + ds.length) 84 + 86 * 2 then
               swap_bits ((rcAt rc ds (j - idx - 86 * 2) >>> 4) &&& 0b11) else 0) := by
  induction ds with
  | nil =>
    intro o rc idx j ho hb
    simp only [pass1Pure, List.length_nil, Nat.add_zero]
    split_ifs with h1 h2 h3 <;> try omega
    simp
  | cons d rest ih =>
    intro o rc idx j ho hb
    simp only [List.length_cons] at hb ⊢
    rw [pass1Pure]
    rw [ih (pass1Step o (rc ^^^ d) idx) (rc ^^^ d) (idx + 1) j
          (by rw [pass1Step_length]; exact ho) (by omega)]
    rw [pass1Step_getD o (rc ^^^ d) idx j ho (by omega)]
    by_cases e1 : j = idx
    · subst e1
      have hS1 : (if j = j then swap_bits (((rc ^^^ d) >>> 0) &&& 0b11) else 0) =
          swap_bits (((rc ^^^ d) >>> 0) &&& 0b11) := if_pos rfl
      have hS2 : (if j = j + 86 then swap_bits (((rc ^^^ d) >>> 2) &&& 0b11) else 0) = 0 :=
        if_neg (by omega)
      have hS3 : (if j = j + 86 * 2 ∧ j < 84 then swap_bits (((rc ^^^ d) >>> 4) &&& 0b11) else 0) = 0 :=
        if_neg (by omega)
      have hC1 : (if j + 1 ≤ j ∧ j < j + 1 + rest.length then
          swap_bits ((rcAt (rc ^^^ d) rest (j - (j + 1)) >>> 0) &&& 0b11) else 0) = 0 :=
        if_neg (by omega)
      have hC2 : (if j + 1 + 86 ≤ j ∧ j < j + 1 + rest.length + 86 then
          swap_bits ((rcAt (rc ^^^ d) rest (j - (j + 1) - 86) >>> 2) &&& 0b11) else 0) = 0 :=
        if_neg (by omega)
      have hC3 : (if j + 1 + 86 * 2 ≤ j ∧ j < min (j + 1 + rest.length) 84 + 86 * 2 then
          swap_bits ((rcAt (rc ^^^ d) rest (j - (j + 1) - 86 * 2) >>> 4) &&& 0b11) else 0) = 0 :=
        if_neg (by omega)
      have hT1 : (if j ≤ j ∧ j < j + (rest.length + 1) then
          swap_bits ((rcAt rc (d :: rest) (j - j) >>> 0) &&& 0b11) else 0) =
          swap_bits (((rc ^^^ d) >>> 0) &&& 0b11) := by
        rw [if_pos (by omega), Nat.sub_self]
        rfl
      have hT2 : (if j + 86 ≤ j ∧ j < j + (rest.length + 1) + 86 then
          swap_bits ((rcAt rc (d :: rest) (j - j - 86) >>> 2) &&& 0b11) else 0) = 0 :=
        if_neg (by omega)
      have hT3 : (if j + 86 * 2 ≤ j ∧ j < min (j + (rest.length + 1)) 84 + 86 * 2 then
          swap_bits ((rcAt rc (d :: rest) (j - j - 86 * 2) >>> 4) &&& 0b11) else 0) = 0 :=
        if_neg (by omega)
      rw [hS1, hS2, hS3, hC1, hC2, hC3, hT1, hT2, hT3]
      simp
    · by_cases e2 : idx + 1 ≤ j ∧ j < idx + 1 + rest.length
      · have hS1 : (if j = idx then swap_bits (((rc ^^^ d) >>> 0) &&& 0b11) else 0) = 0 :=
          if_neg e1
        have hS2 : (if j = idx + 86 then swap_bits (((rc ^^^ d) >>> 2) &&& 0b11) else 0) = 0 :=
          if_neg (by omega)
        have hS3 : (if j = idx + 86 * 2 ∧ idx < 84 then swap_bits (((rc ^^^ d) >>> 4) &&& 0b11) else 0) = 0 :=
          if_neg (by omega)
        have hshift : j - idx = (j - (idx + 1)) + 1 := by omega
        have hC1 : (if idx + 1 ≤ j ∧ j < idx + 1 + rest.length then
            swap_bits ((rcAt (rc ^^^ d) rest (j - (idx + 1)) >>> 0) &&& 0b11) else 0) =
            swap_bits ((rcAt rc (d :: rest) (j - idx) >>> 0) &&& 0b11) := by
          rw [if_pos e2, hshift]
          rfl
        have hC2 : (if idx + 1 + 86 ≤ j ∧ j < idx + 1 + rest.length + 86 then
            swap_bits ((rcAt (rc ^^^ d) rest (j - (idx + 1) - 86) >>> 2) &&& 0b11) else 0) = 0 :=
          if_neg (by omega)
        have hC3 : (if idx + 1 + 86 * 2 ≤ j ∧ j < min (idx + 1 + rest.length) 84 + 86 * 2 then
            swap_bits ((rcAt (rc ^^^ d) rest (j - (idx + 1) - 86 * 2) >>> 4) &&& 0b11) else 0) = 0 :=
          if_neg (by omega)
        have hT1 : (if idx ≤ j ∧ j < idx + (rest.length + 1) then
            swap_bits ((rcAt rc (d :: rest) (j - idx) >>> 0) &&& 0b11) else 0) =
            swap_bits ((rcAt rc (d :: rest) (j - idx) >>> 0) &&& 0b11) :=
          if_pos (by omega)
        have hT2 : (if idx + 86 ≤ j ∧ j < idx + (rest.length + 1) + 86 then
            swap_bits ((rcAt rc (d :: rest) (j - idx - 86) >>> 2) &&& 0b11) else 0) = 0 :=
          if_neg (by omega)
        have hT3 : (if idx + 86 * 2 ≤ j ∧ j < min (idx + (rest.length + 1)) 84 + 86 * 2 then
            swap_bits ((rcAt rc (d :: rest) (j - idx - 86 * 2) >>> 4) &&& 0b11) else 0) = 0 :=
          if_neg (by omega)
        rw [hS1, hS2, hS3, hC1, hC2, hC3, hT1, hT2, hT3]
        simp
      · by_cases e3 : j = idx + 86
        · subst e3
          have hS1 : (if idx + 86 = idx then swap_bits (((rc ^^^ d) >>> 0) &&& 0b11) else 0) = 0 :=
            if_neg (by omega)
          have hS2 : (if idx + 86 = idx + 86 then swap_bits (((rc ^^^ d) >>> 2) &&& 0b11) else 0) =
              swap_bits (((rc ^^^ d) >>> 2) &&& 0b11) := if_pos rfl
          have hS3 : (if idx + 86 = idx + 86 * 2 ∧ idx < 84 then
              swap_bits (((rc ^^^ d) >>> 4) &&& 0b11) else 0) = 0 := if_neg (by omega)
          have hC1 : (if idx + 1 ≤ idx + 86 ∧ idx + 86 < idx + 1 + rest.length then
              swap_bits ((rcAt (rc ^^^ d) rest (idx + 86 - (idx + 1)) >>> 0) &&& 0b11) else 0) = 0 :=
            if_neg (by omega)
          have hC2 : (if idx + 1 + 86 ≤ idx + 86 ∧ idx + 86 < idx + 1 + rest.length + 86 then
              swap_bits ((rcAt (rc ^^^ d) rest (idx + 86 - (idx + 1) - 86) >>> 2) &&& 0b11) else 0) = 0 :=
            if_neg (by omega)
          have hC3 : (if idx + 1 + 86 * 2 ≤ idx + 86 ∧
              idx + 86 < min (idx + 1 + rest.length) 84 + 86 * 2 then
              swap_bits ((rcAt (rc ^^^ d) rest (idx + 86 - (idx + 1) - 86 * 2) >>> 4) &&& 0b11) else 0) = 0 :=
            if_neg (by omega)
          have hT1 : (if idx ≤ idx + 86 ∧ idx + 86 < idx + (rest.length + 1) then
              swap_bits ((rcAt rc (d :: rest) (idx + 86 - idx) >>> 0) &&& 0b11) else 0) = 0 :=
            if_neg (by omega)
          have hT2 : (if idx + 86 ≤ idx + 86 ∧ idx + 86 < idx + (rest.length + 1) + 86 then
              swap_bits ((rcAt rc (d :: rest) (idx + 86 - idx - 86) >>> 2) &&& 0b11) else 0) =
              swap_bits (((rc ^^^ d) >>> 2) &&& 0b11) := by
            rw [if_pos (by omega)]
            have : idx + 86 - idx - 86 = 0 := by omega
            rw [this]
            rfl
          have hT3 : (if idx + 86 * 2 ≤ idx + 86 ∧
              idx + 86 < min (idx + (rest.length + 1)) 84 + 86 * 2 then
              swap_bits ((rcAt rc (d :: rest) (idx + 86 - idx - 86 * 2) >>> 4) &&& 0b11) else 0) = 0 :=
            if_neg (by omega)
          rw [hS1, hS2, hS3, hC1, hC2, hC3, hT1, hT2, hT3]
          simp
        · by_cases e4 : idx + 1 + 86 ≤ j ∧ j < idx + 1 + rest.length + 86
          · have hS1 : (if j = idx then swap_bits (((rc ^^^ d) >>> 0) &&& 0b11) else 0) = 0 :=
              if_neg (by omega)
            have hS2 : (if j = idx + 86 then swap_bits (((rc ^^^ d) >>> 2) &&& 0b11) else 0) = 0 :=
              if_neg e3
            have hS3 : (if j = idx + 86 * 2 ∧ idx < 84 then
                swap_bits (((rc ^^^ d) >>> 4) &&& 0b11) else 0) = 0 := if_neg (by omega)
            have hC1 : (if idx + 1 ≤ j ∧ j < idx + 1 + rest.length then
                swap_bits ((rcAt (rc ^^^ d) rest (j - (idx + 1)) >>> 0) &&& 0b11) else 0) = 0 :=
              if_neg (by omega)
            have hshift : j - idx - 86 = (j - (idx + 1) - 86) + 1 := by omega
            have hC2 : (if idx + 1 + 86 ≤ j ∧ j < idx + 1 + rest.length + 86 then
                swap_bits ((rcAt (rc ^^^ d) rest (j - (idx + 1) - 86) >>> 2) &&& 0b11) else 0) =
                swap_bits ((rcAt rc (d :: rest) (j - idx - 86) >>> 2) &&& 0b11) := by
              rw [if_pos e4, hshift]
              rfl
            have hC3 : (if idx + 1 + 86 * 2 ≤ j ∧ j < min (idx + 1 + rest.length) 84 + 86 * 2 then
                swap_bits ((rcAt (rc ^^^ d) rest (j - (idx + 1) - 86 * 2) >>> 4) &&& 0b11) else 0) = 0 :=
              if_neg (by omega)
            have hT1 : (if idx ≤ j ∧ j < idx + (rest.length + 1) then
                swap_bits ((rcAt rc (d :: rest) (j - idx) >>> 0) &&& 0b11) else 0) = 0 :=
              if_neg (by omega)
            have hT2 : (if idx + 86 ≤ j ∧ j < idx + (rest.length + 1) + 86 then
                swap_bits ((rcAt rc (d :: rest) (j - idx - 86) >>> 2) &&& 0b11) else 0) =
                swap_bits ((rcAt rc (d :: rest) (j - idx - 86) >>> 2) &&& 0b11) :=
              if_pos (by omega)
            have hT3 : (if idx + 86 * 2 ≤ j ∧ j < min (idx + (rest.length + 1)) 84 + 86 * 2 then
                swap_bits ((rcAt rc (d :: rest) (j - idx - 86 * 2) >>> 4) &&& 0b11) else 0) = 0 :=
              if_neg (by omega)
            rw [hS1, hS2, hS3, hC1, hC2, hC3, hT1, hT2, hT3]
            simp
          · by_cases e5 : j = idx + 86 * 2 ∧ idx < 84
            · obtain ⟨e5j, e5i⟩ := e5
              subst e5j
              have hS1 : (if idx + 86 * 2 = idx then
                  swap_bits (((rc ^^^ d) >>> 0) &&& 0b11) else 0) = 0 := if_neg (by omega)
              have hS2 : (if idx + 86 * 2 = idx + 86 then
                  swap_bits (((rc ^^^ d) >>> 2) &&& 0b11) else 0) = 0 := if_neg (by omega)
              have hS3 : (if idx + 86 * 2 = idx + 86 * 2 ∧ idx < 84 then
                  swap_bits (((rc ^^^ d) >>> 4) &&& 0b11) else 0) =
                  swap_bits (((rc ^^^ d) >>> 4) &&& 0b11) := if_pos ⟨rfl, e5i⟩
              have hC1 : (if idx + 1 ≤ idx + 86 * 2 ∧ idx + 86 * 2 < idx + 1 + rest.length then
                  swap_bits ((rcAt (rc ^^^ d) rest (idx + 86 * 2 - (idx + 1)) >>> 0) &&& 0b11) else 0) = 0 :=
                if_neg (by omega)
              have hC2 : (if idx + 1 + 86 ≤ idx + 86 * 2 ∧
                  idx + 86 * 2 < idx + 1 + rest.length + 86 then
                  swap_bits ((rcAt (rc ^^^ d) rest (idx + 86 * 2 - (idx + 1) - 86) >>> 2) &&& 0b11) else 0) = 0 :=
                if_neg (by omega)
              have hC3 : (if idx + 1 + 86 * 2 ≤ idx + 86 * 2 ∧
                  idx + 86 * 2 < min (idx + 1 + rest.length) 84 + 86 * 2 then
                  swap_bits ((rcAt (rc ^^^ d) rest (idx + 86 * 2 - (idx + 1) - 86 * 2) >>> 4) &&& 0b11) else 0) = 0 :=
                if_neg (by omega)
              have hT1 : (if idx ≤ idx + 86 * 2 ∧ idx + 86 * 2 < idx + (rest.length + 1) then
                  swap_bits ((rcAt rc (d :: rest) (idx + 86 * 2 - idx) >>> 0) &&& 0b11) else 0) = 0 :=
                if_neg (by omega)
              have hT2 : (if idx + 86 ≤ idx + 86 * 2 ∧
                  idx + 86 * 2 < idx + (rest.length + 1) + 86 then
                  swap_bits ((rcAt rc (d :: rest) (idx + 86 * 2 - idx - 86) >>> 2) &&& 0b11) else 0) = 0 :=
                if_neg (by omega)
              have hT3 : (if idx + 86 * 2 ≤ idx + 86 * 2 ∧
                  idx + 86 * 2 < min (idx + (rest.length + 1)) 84 + 86 * 2 then
                  swap_bits ((rcAt rc (d :: rest) (idx + 86 * 2 - idx - 86 * 2) >>> 4) &&& 0b11) else 0) =
                  swap_bits (((rc ^^^ d) >>> 4) &&& 0b11) := by
                rw [if_pos (by omega)]
                have : idx + 86 * 2 - idx - 86 * 2 = 0 := by omega
                rw [this]
                rfl
              rw [hS1, hS2, hS3, hC1, hC2, hC3, hT1, hT2, hT3]
              simp
            · by_cases e6 : idx + 1 + 86 * 2 ≤ j ∧ j < min (idx + 1 + rest.length) 84 + 86 * 2
              · have hS1 : (if j = idx then swap_bits (((rc ^^^ d) >>> 0) &&& 0b11) else 0) = 0 :=
                  if_neg (by omega)
                have hS2 : (if j = idx + 86 then swap_bits (((rc ^^^ d) >>> 2) &&& 0b11) else 0) = 0 :=
                  if_neg (by omega)
                have hS3 : (if j = idx + 86 * 2 ∧ idx < 84 then
                    swap_bits (((rc ^^^ d) >>> 4) &&& 0b11) else 0) = 0 := if_neg (by omega)
                have hC1 : (if idx + 1 ≤ j ∧ j < idx + 1 + rest.length then
                    swap_bits ((rcAt (rc ^^^ d) rest (j - (idx + 1)) >>> 0) &&& 0b11) else 0) = 0 :=
                  if_neg (by omega)
                have hC2 : (if idx + 1 + 86 ≤ j ∧ j < idx + 1 + rest.length + 86 then
                    swap_bits ((rcAt (rc ^^^ d) rest (j - (idx + 1) - 86) >>> 2) &&& 0b11) else 0) = 0 :=
                  if_neg (by omega)
                have hshift : j - idx - 86 * 2 = (j - (idx + 1) - 86 * 2) + 1 := by omega
                have hC3 : (if idx + 1 + 86 * 2 ≤ j ∧ j < min (idx + 1 + rest.length) 84 + 86 * 2 then
                    swap_bits ((rcAt (rc ^^^ d) rest (j - (idx + 1) - 86 * 2) >>> 4) &&& 0b11) else 0) =
                    swap_bits ((rcAt rc (d :: rest) (j - idx - 86 * 2) >>> 4) &&& 0b11) := by
                  rw [if_pos e6, hshift]
                  rfl
                have hT1 : (if idx ≤ j ∧ j < idx + (rest.length + 1) then
                    swap_bits ((rcAt rc (d :: rest) (j - idx) >>> 0) &&& 0b11) else 0) = 0 :=
                  if_neg (by omega)
                have hT2 : (if idx + 86 ≤ j ∧ j < idx + (rest.length + 1) + 86 then
                    swap_bits ((rcAt rc (d :: rest) (j - idx - 86) >>> 2) &&& 0b11) else 0) = 0 :=
                  if_neg (by omega)
                have hT3 : (if idx + 86 * 2 ≤ j ∧ j < min (idx + (rest.length + 1)) 84 + 86 * 2 then
                    swap_bits ((rcAt rc (d :: rest) (j - idx - 86 * 2) >>> 4) &&& 0b11) else 0) =
                    swap_bits ((rcAt rc (d :: rest) (j - idx - 86 * 2) >>> 4) &&& 0b11) :=
                  if_pos (by omega)
                rw [hS1, hS2, hS3, hC1, hC2, hC3, hT1, hT2, hT3]
                simp
              · have hS1 : (if j = idx then swap_bits (((rc ^^^ d) >>> 0) &&& 0b11) else 0) = 0 :=
                  if_neg e1
                have hS2 : (if j = idx + 86 then swap_bits (((rc ^^^ d) >>> 2) &&& 0b11) else 0) = 0 :=
                  if_neg e3
                have hS3 : (if j = idx + 86 * 2 ∧ idx < 84 then
                    swap_bits (((rc ^^^ d) >>> 4) &&& 0b11) else 0) = 0 := if_neg (by tauto)
                have hC1 : (if idx + 1 ≤ j ∧ j < idx + 1 + rest.length then
                    swap_bits ((rcAt (rc ^^^ d) rest (j - (idx + 1)) >>> 0) &&& 0b11) else 0) = 0 :=
                  if_neg e2
                have hC2 : (if idx + 1 + 86 ≤ j ∧ j < idx + 1 + rest.length + 86 then
                    swap_bits ((rcAt (rc ^^^ d) rest (j - (idx + 1) - 86) >>> 2) &&& 0b11) else 0) = 0 :=
                  if_neg e4
                have hC3 : (if idx + 1 + 86 * 2 ≤ j ∧ j < min (idx + 1 + rest.length) 84 + 86 * 2 then
                    swap_bits ((rcAt (rc ^^^ d) rest (j - (idx + 1) - 86 * 2) >>> 4) &&& 0b11) else 0) = 0 :=
                  if_neg e6
                have hT1 : (if idx ≤ j ∧ j < idx + (rest.length + 1) then
                    swap_bits ((rcAt rc (d :: rest) (j - idx) >>> 0) &&& 0b11) else 0) = 0 :=
                  if_neg (by omega)
                have hT2 : (if idx + 86 ≤ j ∧ j < idx + (rest.length + 1) + 86 then
                    swap_bits ((rcAt rc (d :: rest) (j - idx - 86) >>> 2) &&& 0b11) else 0) = 0 :=
                  if_neg (by omega)
                have hT3 : (if idx + 86 * 2 ≤ j ∧ j < min (idx + (rest.length + 1)) 84 + 86 * 2 then
                    swap_bits ((rcAt rc (d :: rest) (j - idx - 86 * 2) >>> 4) &&& 0b11) else 0) = 0 :=
                  if_neg (by omega)
                rw [hS1, hS2, hS3, hC1, hC2, hC3, hT1, hT2, hT3]
                simp

end Woz

namespace Woz

theorem pass2Pure_getD (ds : List Nat) : ∀ o rc idx j, o.length = 256 → idx + ds.length ≤ 256 →
    (pass2Pure o rc idx ds).1.getD j 0 =
      o.getD j 0 ^^^
        (if idx ≤ j ∧ j < idx + ds.length then rcAt rc ds (j - idx) <<< 2 else 0) := by
  induction ds with
  | nil =>
    intro o rc idx j ho hb
    simp only [pass2Pure, List.length_nil, Nat.add_zero]
    rw [if_neg (by omega)]
    simp
  | cons d rest ih =>
    intro o rc idx j ho hb
    simp only [List.length_cons] at hb ⊢
    rw [pass2Pure]
    rw [ih _ (rc ^^^ d) (idx + 1) j (by simp [List.length_set, ho]) (by omega)]
    by_cases e1 : j = idx
    · subst e1
      rw [getD_set_self _ _ _ (by omega)]
      have hC : (if j + 1 ≤ j ∧ j < j + 1 + rest.length then
          rcAt (rc ^^^ d) rest (j - (j + 1)) <<< 2 else 0) = 0 := if_neg (by omega)
      have hT : (if j ≤ j ∧ j < j + (rest.length + 1) then
          rcAt rc (d :: rest) (j - j) <<< 2 else 0) = (rc ^^^ d) <<< 2 := by
        rw [if_pos (by omega), Nat.sub_self]
        rfl
      rw [hC, hT]
      simp
    · rw [getD_set_other _ _ _ _ (fun h => e1 h.symm)]
      by_cases e2 : idx + 1 ≤ j ∧ j < idx + 1 + rest.length
      · have hshift : j - idx = (j - (idx + 1)) + 1 := by omega
        have hC : (if idx + 1 ≤ j ∧ j < idx + 1 + rest.length then
            rcAt (rc ^^^ d) rest (j - (idx + 1)) <<< 2 else 0) =
            rcAt rc (d :: rest) (j - idx) <<< 2 := by
          rw [if_pos e2, hshift]
          rfl
        have hT : (if idx ≤ j ∧ j < idx + (rest.length + 1) then
            rcAt rc (d :: rest) (j - idx) <<< 2 else 0) =
            rcAt rc (d :: rest) (j - idx) <<< 2 := if_pos (by omega)
        rw [hC, hT]
      · have hC : (if idx + 1 ≤ j ∧ j < idx + 1 + rest.length then
            rcAt (rc ^^^ d) rest (j - (idx + 1)) <<< 2 else 0) = 0 := if_neg e2
        have hT : (if idx ≤ j ∧ j < idx + (rest.length + 1) then
            rcAt rc (d :: rest) (j - idx) <<< 2 else 0) = 0 := if_neg (by omega)
        rw [hC, hT]

/-! ### The 6-and-2 alphabet -/

theorem decode_of_encode (d : Nat) (h : d < 64) :
    decode_62_nibble (ENCODE_62.getD d 0) = .ok d := by
  interval_cases d <;> rfl

theorem encode_mem_lt (d : Nat) (h : d < 64) : ENCODE_62.getD d 0 < 256 := by
  interval_cases d <;> decide

theorem indexOf62_lt (n : Nat) : ∀ (l : List Nat) (k j : Nat),
    indexOf62 n l k = some j → j < k + l.length := by
  intro l
  induction l with
  | nil => intro k j h; exact absurd h (by simp [indexOf62])
  | cons v t ih =>
    intro k j h
    rw [indexOf62] at h
    by_cases hv : v = n
    · rw [if_pos hv] at h
      simp only [Option.some.injEq] at h
      simp only [List.length_cons]
      omega
    · rw [if_neg hv] at h
      have := ih (k + 1) j h
      simp only [List.length_cons]
      omega

theorem decode_62_nibble_lt (n d : Nat) (h : decode_62_nibble n = .ok d) : d < 64 := by
  rw [decode_62_nibble] at h
  rcases hm : DECODE_62_MAP n with _ | v
  · rw [hm] at h
    exact absurd h (by simp)
  · rw [hm] at h
    simp only [Except.ok.injEq] at h
    rw [DECODE_62_MAP] at hm
    have hlt := indexOf62_lt n ENCODE_62 0 v hm
    have h64 : ENCODE_62.length = 64 := rfl
    omega

/-! ### decodeList -/

theorem decodeList_encode (ds : List Nat) (h : ∀ d ∈ ds, d < 64) :
    decodeList (ds.map fun d => ENCODE_62.getD d 0) = some ds := by
  induction ds with
  | nil => rfl
  | cons d t ih =>
    rw [List.map_cons, decodeList, decode_of_encode d (h d (by simp)),
        ih (fun x hx => h x (by simp [hx]))]

theorem decodeList_lt (ns : List Nat) : ∀ ds, decodeList ns = some ds →
    (∀ d ∈ ds, d < 64) ∧ ds.length = ns.length := by
  induction ns with
  | nil =>
    intro ds h
    simp [decodeList] at h
    subst h
    simp
  | cons n t ih =>
    intro ds h
    rw [decodeList] at h
    rcases hd : decode_62_nibble n with e | d
    · rw [hd] at h
      exact absurd h (by simp)
    · rw [hd] at h
      rcases ht : decodeList t with _ | ds'
      · rw [ht] at h
        exact absurd h (by simp)
      · rw [ht] at h
        simp at h
        subst h
        obtain ⟨h1, h2⟩ := ih ds' ht
        refine ⟨?_, by simp [h2]⟩
        intro x hx
        rcases List.mem_cons.1 hx with hx | hx
        · subst hx
          exact decode_62_nibble_lt n x hd
        · exact h1 x hx

/-! ### Bridging the guarded passes to the pure passes -/

theorem pass1Step_entries (o : List Nat) (rc' idx : Nat) (he : ∀ e ∈ o, e < 256) :
    ∀ e ∈ pass1Step o rc' idx, e < 256 := by
  rw [pass1Step]
  have h1 : ∀ e ∈ o.set idx (o.getD idx 0 ^^^ swap_bits ((rc' >>> 0) &&& 0b11)), e < 256 := by
    apply mem_set_lt o idx _ he
    exact xor_lt_256 (getD_lt_of_mem_lt o idx he)
      (by have := swap_bits_and3_lt (rc' >>> 0); omega)
  have h2 : ∀ e ∈ (o.set idx (o.getD idx 0 ^^^ swap_bits ((rc' >>> 0) &&& 0b11))).set (idx + 86)
      ((o.set idx (o.getD idx 0 ^^^ swap_bits ((rc' >>> 0) &&& 0b11))).getD (idx + 86) 0 ^^^
        swap_bits ((rc' >>> 2) &&& 0b11)), e < 256 := by
    apply mem_set_lt _ _ _ h1
    exact xor_lt_256 (getD_lt_of_mem_lt _ _ h1)
      (by have := swap_bits_and3_lt (rc' >>> 2); omega)
  split
  · apply mem_set_lt _ _ _ h2
    exact xor_lt_256 (getD_lt_of_mem_lt _ _ h2)
      (by have := swap_bits_and3_lt (rc' >>> 4); omega)
  · exact h2

theorem pass1_cons_ok (o : List Nat) (rc idx d n : Nat) (rest : List Nat)
    (hn : decode_62_nibble n = .ok d) (ho : o.length = 256) (he : ∀ e ∈ o, e < 256)
    (hidx : idx < 86) :
    pass1 o rc idx (n :: rest) = pass1 (pass1Step o (rc ^^^ d) idx) (rc ^^^ d) (idx + 1) rest := by
  have hv1 : o.getD idx 0 ^^^ swap_bits (((rc ^^^ d) >>> 0) &&& 0b11) < 256 :=
    xor_lt_256 (getD_lt_of_mem_lt o idx he)
      (by have := swap_bits_and3_lt ((rc ^^^ d) >>> 0); omega)
  have hb1 : bset o idx (o.getD idx 0 ^^^ swap_bits (((rc ^^^ d) >>> 0) &&& 0b11)) =
      .ok (o.set idx (o.getD idx 0 ^^^ swap_bits (((rc ^^^ d) >>> 0) &&& 0b11))) := by
    rw [bset, if_pos (by omega), if_pos hv1]
  have ho1 := mem_set_lt o idx _ he hv1
  have hl1 : (o.set idx (o.getD idx 0 ^^^ swap_bits (((rc ^^^ d) >>> 0) &&& 0b11))).length = 256 := by
    simp [List.length_set, ho]
  have hv2 : (o.set idx (o.getD idx 0 ^^^ swap_bits (((rc ^^^ d) >>> 0) &&& 0b11))).getD (idx + 86) 0
      ^^^ swap_bits (((rc ^^^ d) >>> 2) &&& 0b11) < 256 :=
    xor_lt_256 (getD_lt_of_mem_lt _ _ ho1)
      (by have := swap_bits_and3_lt ((rc ^^^ d) >>> 2); omega)
  have hb2 : bset (o.set idx (o.getD idx 0 ^^^ swap_bits (((rc ^^^ d) >>> 0) &&& 0b11))) (idx + 86)
      ((o.set idx (o.getD idx 0 ^^^ swap_bits (((rc ^^^ d) >>> 0) &&& 0b11))).getD (idx + 86) 0
        ^^^ swap_bits (((rc ^^^ d) >>> 2) &&& 0b11)) =
      .ok ((o.set idx (o.getD idx 0 ^^^ swap_bits (((rc ^^^ d) >>> 0) &&& 0b11))).set (idx + 86)
        ((o.set idx (o.getD idx 0 ^^^ swap_bits (((rc ^^^ d) >>> 0) &&& 0b11))).getD (idx + 86) 0
          ^^^ swap_bits (((rc ^^^ d) >>> 2) &&& 0b11))) := by
    rw [bset, if_pos (by rw [hl1]; omega), if_pos hv2]
  have ho2 := mem_set_lt _ (idx + 86) _ ho1 hv2
  have hl2 : ((o.set idx (o.getD idx 0 ^^^ swap_bits (((rc ^^^ d) >>> 0) &&& 0b11))).set (idx + 86)
      ((o.set idx (o.getD idx 0 ^^^ swap_bits (((rc ^^^ d) >>> 0) &&& 0b11))).getD (idx + 86) 0
        ^^^ swap_bits (((rc ^^^ d) >>> 2) &&& 0b11))).length = 256 := by
    simp [List.length_set, ho]
  by_cases h84 : idx < 84
  · have hv3 : _ ^^^ swap_bits (((rc ^^^ d) >>> 4) &&& 0b11) < 256 :=
      xor_lt_256 (getD_lt_of_mem_lt _ (idx + 86 * 2) ho2)
        (by have := swap_bits_and3_lt ((rc ^^^ d) >>> 4); omega)
    have hb3 : bset ((o.set idx (o.getD idx 0 ^^^ swap_bits (((rc ^^^ d) >>> 0) &&& 0b11))).set (idx + 86)
        ((o.set idx (o.getD idx 0 ^^^ swap_bits (((rc ^^^ d) >>> 0) &&& 0b11))).getD (idx + 86) 0
          ^^^ swap_bits (((rc ^^^ d) >>> 2) &&& 0b11))) (idx + 86 * 2)
        (((o.set idx (o.getD idx 0 ^^^ swap_bits (((rc ^^^ d) >>> 0) &&& 0b11))).set (idx + 86)
          ((o.set idx (o.getD idx 0 ^^^ swap_bits (((rc ^^^ d) >>> 0) &&& 0b11))).getD (idx + 86) 0
            ^^^ swap_bits (((rc ^^^ d) >>> 2) &&& 0b11))).getD (idx + 86 * 2) 0
          ^^^ swap_bits (((rc ^^^ d) >>> 4) &&& 0b11)) =
        .ok (((o.set idx (o.getD idx 0 ^^^ swap_bits (((rc ^^^ d) >>> 0) &&& 0b11))).set (idx + 86)
          ((o.set idx (o.getD idx 0 ^^^ swap_bits (((rc ^^^ d) >>> 0) &&& 0b11))).getD (idx + 86) 0
            ^^^ swap_bits (((rc ^^^ d) >>> 2) &&& 0b11))).set (idx + 86 * 2)
          (((o.set idx (o.getD idx 0 ^^^ swap_bits (((rc ^^^ d) >>> 0) &&& 0b11))).set (idx + 86)
            ((o.set idx (o.getD idx 0 ^^^ swap_bits (((rc ^^^ d) >>> 0) &&& 0b11))).getD (idx + 86) 0
              ^^^ swap_bits (((rc ^^^ d) >>> 2) &&& 0b11))).getD (idx + 86 * 2) 0
            ^^^ swap_bits (((rc ^^^ d) >>> 4) &&& 0b11))) := by
      rw [bset, if_pos (by rw [hl2]; omega), if_pos hv3]
    simp only [pass1, hn, hb1, hb2, if_pos h84, hb3, pass1Step]
  · simp only [pass1, hn, hb1, hb2, if_neg h84, pass1Step]

theorem pass1_eq_pure (ns : List Nat) : ∀ ds o rc idx,
    decodeList ns = some ds → o.length = 256 → (∀ e ∈ o, e < 256) →
    idx + ns.length ≤ 86 →
    pass1 o rc idx ns = .ok (pass1Pure o rc idx ds) := by
  induction ns with
  | nil =>
    intro ds o rc idx hd ho he hb
    simp [decodeList] at hd
    subst hd
    rfl
  | cons n t ih =>
    intro ds o rc idx hd ho he hb
    rw [decodeList] at hd
    rcases hn : decode_62_nibble n with e | d
    · rw [hn] at hd
      exact absurd hd (by simp)
    · rw [hn] at hd
      rcases ht : decodeList t with _ | ds'
      · rw [ht] at hd
        exact absurd hd (by simp)
      · rw [ht] at hd
        simp at hd
        subst hd
        simp only [List.length_cons] at hb
        rw [pass1_cons_ok o rc idx d n t hn ho he (by omega)]
        rw [ih ds' _ (rc ^^^ d) (idx + 1) ht (by rw [pass1Step_length]; exact ho)
              (pass1Step_entries o _ idx he) (by omega)]
        rw [pass1Pure]

end Woz

namespace Woz

theorem shiftLeft2_lt (x : Nat) (h : x < 64) : x <<< 2 < 256 := by
  rw [Nat.shiftLeft_eq]
  have h4 : (2 : Nat) ^ 2 = 4 := rfl
  rw [h4]
  omega

theorem pass2_cons_ok (o : List Nat) (rc idx d n : Nat) (rest : List Nat)
    (hn : decode_62_nibble n = .ok d) (ho : o.length = 256) (he : ∀ e ∈ o, e < 256)
    (hrc : rc ^^^ d < 64) (hidx : idx < 256) :
    pass2 o rc idx (n :: rest) =
      pass2 (o.set idx (o.getD idx 0 ^^^ ((rc ^^^ d) <<< 2))) (rc ^^^ d) (idx + 1) rest := by
  have hv : o.getD idx 0 ^^^ ((rc ^^^ d) <<< 2) < 256 :=
    xor_lt_256 (getD_lt_of_mem_lt o idx he) (shiftLeft2_lt _ hrc)
  have hb : bset o idx (o.getD idx 0 ^^^ ((rc ^^^ d) <<< 2)) =
      .ok (o.set idx (o.getD idx 0 ^^^ ((rc ^^^ d) <<< 2))) := by
    rw [bset, if_pos (by omega), if_pos hv]
  simp only [pass2, hn, hb]

theorem pass2_eq_pure (ns : List Nat) : ∀ ds o rc idx,
    decodeList ns = some ds → o.length = 256 → (∀ e ∈ o, e < 256) → rc < 64 →
    idx + ns.length ≤ 256 →
    pass2 o rc idx ns = .ok (pass2Pure o rc idx ds) := by
  induction ns with
  | nil =>
    intro ds o rc idx hd ho he hrc hb
    simp [decodeList] at hd
    subst hd
    rfl
  | cons n t ih =>
    intro ds o rc idx hd ho he hrc hb
    rw [decodeList] at hd
    rcases hn : decode_62_nibble n with e | d
    · rw [hn] at hd
      exact absurd hd (by simp)
    · rw [hn] at hd
      rcases ht : decodeList t with _ | ds'
      · rw [ht] at hd
        exact absurd hd (by simp)
      · rw [ht] at hd
        simp at hd
        subst hd
        simp only [List.length_cons] at hb
        have hd64 : d < 64 := decode_62_nibble_lt n d hn
        have hrc' : rc ^^^ d < 64 := xor_lt_64 hrc hd64
        rw [pass2_cons_ok o rc idx d n t hn ho he hrc' (by omega)]
        have hv : o.getD idx 0 ^^^ ((rc ^^^ d) <<< 2) < 256 :=
          xor_lt_256 (getD_lt_of_mem_lt o idx he) (shiftLeft2_lt _ hrc')
        rw [ih ds' _ (rc ^^^ d) (idx + 1) ht (by simp [List.length_set, ho])
              (mem_set_lt o idx _ he hv) hrc' (by omega)]
        rw [pass2Pure]

theorem rcAt_lt_64 (ds : List Nat) : ∀ rc k, rc < 64 → (∀ d ∈ ds, d < 64) →
    rcAt rc ds k < 64 := by
  induction ds with
  | nil => intro rc k hrc _; rw [rcAt]; exact hrc
  | cons d t ih =>
    intro rc k hrc hd
    cases k with
    | zero => exact xor_lt_64 hrc (hd d (by simp))
    | succ k =>
      rw [rcAt]
      exact ih _ k (xor_lt_64 hrc (hd d (by simp))) (fun x hx => hd x (by simp [hx]))

theorem rcFinal_lt_64 (ds : List Nat) : ∀ rc, rc < 64 → (∀ d ∈ ds, d < 64) →
    rcFinal rc ds < 64 := by
  induction ds with
  | nil => intro rc hrc _; rw [rcFinal]; exact hrc
  | cons d t ih =>
    intro rc hrc hd
    rw [rcFinal]
    exact ih _ (xor_lt_64 hrc (hd d (by simp))) (fun x hx => hd x (by simp [hx]))

end Woz

namespace Woz

theorem indexOf62_isSome (n : Nat) : ∀ (l : List Nat) (k : Nat), n ∈ l →
    (indexOf62 n l k).isSome = true := by
  intro l
  induction l with
  | nil => intro k h; simp at h
  | cons v t ih =>
    intro k h
    rw [indexOf62]
    by_cases hv : v = n
    · rw [if_pos hv]
      rfl
    · rw [if_neg hv]
      rcases List.mem_cons.1 h with h | h
      · exact absurd h.symm hv
      · exact ih (k + 1) h

theorem mem_decode_ok (n : Nat) (h : n ∈ ENCODE_62) : ∃ d, decode_62_nibble n = .ok d := by
  rw [decode_62_nibble, DECODE_62_MAP]
  rcases hm : indexOf62 n ENCODE_62 0 with _ | v
  · have := indexOf62_isSome n ENCODE_62 0 h
    rw [hm] at this
    exact absurd this (by simp)
  · exact ⟨v, rfl⟩

theorem decodeList_isSome (ns : List Nat) (h : ∀ n ∈ ns, n ∈ ENCODE_62) :
    ∃ ds, decodeList ns = some ds := by
  induction ns with
  | nil => exact ⟨[], rfl⟩
  | cons n t ih =>
    obtain ⟨d, hd⟩ := mem_decode_ok n (h n (by simp))
    obtain ⟨ds, hds⟩ := ih (fun x hx => h x (by simp [hx]))
    rw [decodeList, hd, hds]
    exact ⟨d :: ds, rfl⟩

theorem pass1Pure_entries (ds : List Nat) : ∀ o rc idx, (∀ e ∈ o, e < 256) →
    ∀ e ∈ (pass1Pure o rc idx ds).1, e < 256 := by
  induction ds with
  | nil => intro o rc idx he; exact he
  | cons d rest ih =>
    intro o rc idx he
    rw [pass1Pure]
    exact ih _ _ _ (pass1Step_entries o _ idx he)

theorem pass2Pure_entries (ds : List Nat) : ∀ o rc idx, (∀ e ∈ o, e < 256) → rc < 64 →
    (∀ d ∈ ds, d < 64) → ∀ e ∈ (pass2Pure o rc idx ds).1, e < 256 := by
  induction ds with
  | nil => intro o rc idx he _ _; exact he
  | cons d rest ih =>
    intro o rc idx he hrc hd
    rw [pass2Pure]
    have hrc' : rc ^^^ d < 64 := xor_lt_64 hrc (hd d (by simp))
    exact ih _ _ _
      (mem_set_lt o idx _ he (xor_lt_256 (getD_lt_of_mem_lt o idx he) (shiftLeft2_lt _ hrc')))
      hrc' (fun x hx => hd x (by simp [hx]))

theorem replicate256_length : (List.replicate 256 (0 : Nat)).length = 256 := by
  rw [List.length_replicate]

theorem replicate256_entries : ∀ e ∈ List.replicate 256 (0 : Nat), e < 256 := by
  intro e he
  rw [List.eq_of_mem_replicate he]
  omega

theorem decode_62_spec (data ds1 ds2 : List Nat)
    (h1 : decodeList (data.take 86) = some ds1)
    (h2 : decodeList (data.drop 86) = some ds2)
    (hlen : data.length = 342) :
    decode_62 data =
      .ok ((pass2Pure (pass1Pure (List.replicate 256 0) 0 0 ds1).1 (rcFinal 0 ds1) 0 ds2).1,
           rcFinal (rcFinal 0 ds1) ds2) := by
  have hl1 : (data.take 86).length = 86 := by
    rw [List.length_take]
    omega
  have hl2 : (data.drop 86).length = 256 := by
    rw [List.length_drop]
    omega
  obtain ⟨hds1lt, hds1len⟩ := decodeList_lt _ _ h1
  obtain ⟨hds2lt, hds2len⟩ := decodeList_lt _ _ h2
  rw [decode_62, if_pos hlen]
  rw [pass1_eq_pure (data.take 86) ds1 (List.replicate 256 0) 0 0 h1 replicate256_length
        replicate256_entries (by omega)]
  rcases hP : pass1Pure (List.replicate 256 0) 0 0 ds1 with ⟨o1, rc1⟩
  have ho1len : o1.length = 256 := by
    have := pass1Pure_length ds1 (List.replicate 256 0) 0 0
    rw [hP, replicate256_length] at this
    exact this
  have ho1e : ∀ e ∈ o1, e < 256 := by
    have := pass1Pure_entries ds1 (List.replicate 256 0) 0 0 replicate256_entries
    rw [hP] at this
    exact this
  have hrc1 : rc1 = rcFinal 0 ds1 := by
    have := pass1Pure_rc ds1 (List.replicate 256 0) 0 0
    rw [hP] at this
    exact this
  have hrc1lt : rc1 < 64 := by
    rw [hrc1]
    exact rcFinal_lt_64 ds1 0 (by omega) hds1lt
  show pass2 o1 rc1 0 (data.drop 86) = _
  rw [pass2_eq_pure (data.drop 86) ds2 o1 rc1 0 h2 ho1len ho1e hrc1lt (by omega), hrc1]
  have h2nd := pass2Pure_rc ds2 o1 (rcFinal 0 ds1) 0
  rw [show ((o1, rcFinal 0 ds1).1) = o1 from rfl, ← h2nd]

/-- C9: on a 342-nibble input drawn entirely from the 6-and-2 alphabet,
`decode_62` succeeds: every store into the 256-byte output bytearray is in
range (no `IndexError`/`ValueError`), the output stays a list of 256 bytes
below 256, and the returned running checksum is a 6-bit value. -/
theorem c9_decode_62_safe (data : List Nat) (hlen : data.length = 342)
    (halpha : ∀ n ∈ data, n ∈ ENCODE_62) :
    ∃ out c, decode_62 data = Except.ok (out, c) ∧ out.length = 256 ∧
      (∀ e ∈ out, e < 256) ∧ (∀ j, out.getD j 0 < 256) ∧ c < 64 := by
  obtain ⟨ds1, h1⟩ := decodeList_isSome (data.take 86)
    (fun n hn => halpha n (List.mem_of_mem_take hn))
  obtain ⟨ds2, h2⟩ := decodeList_isSome (data.drop 86)
    (fun n hn => halpha n (List.mem_of_mem_drop hn))
  obtain ⟨hds1lt, hds1len⟩ := decodeList_lt _ _ h1
  obtain ⟨hds2lt, hds2len⟩ := decodeList_lt _ _ h2
  refine ⟨_, _, decode_62_spec data ds1 ds2 h1 h2 hlen, ?_, ?_, ?_, ?_⟩
  · rw [pass2Pure_length, pass1Pure_length, replicate256_length]
  · apply pass2Pure_entries ds2 _ _ 0
    · exact pass1Pure_entries ds1 _ 0 0 replicate256_entries
    · exact rcFinal_lt_64 ds1 0 (by omega) hds1lt
    · exact hds2lt
  · intro j
    apply getD_lt_of_mem_lt
    apply pass2Pure_entries ds2 _ _ 0
    · exact pass1Pure_entries ds1 _ 0 0 replicate256_entries
    · exact rcFinal_lt_64 ds1 0 (by omega) hds1lt
    · exact hds2lt
  · exact rcFinal_lt_64 ds2 _ (rcFinal_lt_64 ds1 0 (by omega) hds1lt) hds2lt

/-- Witness for C9 at the concrete all-`0x96` input. -/
theorem c9_decode_62_safe_witness :
    ∃ out c, decode_62 (List.replicate 342 0x96) = Except.ok (out, c) ∧ out.length = 256 ∧
      (∀ e ∈ out, e < 256) ∧ (∀ j, out.getD j 0 < 256) ∧ c < 64 := by
  apply c9_decode_62_safe (List.replicate 342 0x96) (by rw [List.length_replicate])
  intro n hn
  have : n = 0x96 := List.eq_of_mem_replicate hn
  subst this
  decide

end Woz

namespace Woz

/-! ### Encoder-side facts -/

set_option maxRecDepth 10000 in
theorem or_shift_fields : ∀ a < 4, ∀ b < 4, ∀ c < 4,
    ((a ||| (b <<< 2)) ||| (c <<< 4)) < 64 ∧
    ((((a ||| (b <<< 2)) ||| (c <<< 4)) >>> 0) &&& 0b11) = a ∧
    ((((a ||| (b <<< 2)) ||| (c <<< 4)) >>> 2) &&& 0b11) = b ∧
    ((((a ||| (b <<< 2)) ||| (c <<< 4)) >>> 4) &&& 0b11) = c := by
  decide

theorem swap_swap : ∀ b < 4, swap_bits (swap_bits b) = b := by
  decide

set_option maxRecDepth 40000 in
theorem and3_recompose : ∀ x < 256, ((x &&& 0b11) ^^^ ((x >>> 2) <<< 2)) = x := by
  decide

theorem shiftRight2_lt (x : Nat) (h : x < 256) : x >>> 2 < 64 := by
  rw [Nat.shiftRight_eq_div_pow]
  have h4 : (2 : Nat) ^ 2 = 4 := rfl
  rw [h4]
  omega

theorem getD_replicate256 (j : Nat) (h : j < 256) :
    (List.replicate 256 (0 : Nat)).getD j 0 = 0 := by
  rw [List.getD_eq_getElem _ _ (by rw [List.length_replicate]; exact h)]
  rw [List.getElem_replicate]

theorem auxNibble_fields (p : List Nat) (i : Nat) :
    auxNibble p i < 64 ∧
    ((auxNibble p i >>> 0) &&& 0b11) = swap_bits (p.getD i 0 &&& 0b11) ∧
    ((auxNibble p i >>> 2) &&& 0b11) = swap_bits (p.getD (i + 86) 0 &&& 0b11) ∧
    ((auxNibble p i >>> 4) &&& 0b11) =
      (if i < 84 then swap_bits (p.getD (i + 172) 0 &&& 0b11) else 0) := by
  have hc : (if i < 84 then swap_bits (p.getD (i + 172) 0 &&& 0b11) else 0) < 4 := by
    split
    · exact swap_bits_and3_lt _
    · omega
  exact or_shift_fields _ (swap_bits_and3_lt _) _ (swap_bits_and3_lt _) _ hc

theorem auxList_length (p : List Nat) : (auxList p).length = 86 := by
  rw [auxList, List.length_map, List.length_range]

theorem auxList_getD (p : List Nat) (k : Nat) (h : k < 86) :
    (auxList p).getD k 0 = auxNibble p k := by
  rw [auxList]
  rw [List.getD_eq_getElem _ 0 (by rw [List.length_map, List.length_range]; omega),
      List.getElem_map]
  congr 1
  simp

theorem auxList_lt (p : List Nat) : ∀ x ∈ auxList p, x < 64 := by
  intro x hx
  rw [auxList] at hx
  obtain ⟨i, _, hi⟩ := List.mem_map.1 hx
  rw [← hi]
  exact (auxNibble_fields p i).1

theorem sixList_length (p : List Nat) : (sixList p).length = p.length := by
  rw [sixList, List.length_map]

theorem sixList_getD (p : List Nat) (k : Nat) (h : k < p.length) :
    (sixList p).getD k 0 = p.getD k 0 >>> 2 := by
  rw [sixList, List.getD_eq_getElem _ 0 (by rw [List.length_map]; omega),
      List.getD_eq_getElem p 0 h, List.getElem_map]

theorem sixList_lt (p : List Nat) (hp : ∀ b ∈ p, b < 256) : ∀ x ∈ sixList p, x < 64 := by
  intro x hx
  rw [sixList] at hx
  obtain ⟨b, hb, hbx⟩ := List.mem_map.1 hx
  rw [← hbx]
  exact shiftRight2_lt b (hp b hb)

theorem encode_62_split (p : List Nat) :
    encode_62 p = ((chain 0 (auxList p)).map fun v => ENCODE_62.getD v 0) ++
      ((chain (lastFrom 0 (auxList p)) (sixList p)).map fun v => ENCODE_62.getD v 0) := by
  rw [encode_62, preNibbles, chain_append, List.map_append]

theorem encode_62_chainA_length (p : List Nat) :
    (((chain 0 (auxList p)).map fun v => ENCODE_62.getD v 0)).length = 86 := by
  rw [List.length_map, chain_length, auxList_length]

theorem encode_62_take (p : List Nat) :
    (encode_62 p).take 86 = (chain 0 (auxList p)).map fun v => ENCODE_62.getD v 0 := by
  rw [encode_62_split, ← encode_62_chainA_length p, List.take_left]

theorem encode_62_drop (p : List Nat) :
    (encode_62 p).drop 86 =
      (chain (lastFrom 0 (auxList p)) (sixList p)).map fun v => ENCODE_62.getD v 0 := by
  rw [encode_62_split, ← encode_62_chainA_length p, List.drop_left]

theorem encode_62_length (p : List Nat) (hlen : p.length = 256) :
    (encode_62 p).length = 342 := by
  rw [encode_62, List.length_map, chain_length, preNibbles, List.length_append,
      auxList_length, sixList_length, hlen]

/-- C4: decoding the output of a conformant 6-and-2 encoder reproduces the
payload exactly, and the decoded trailing checksum nibble XORs the returned
running checksum to zero. -/
theorem c4_roundtrip (p : List Nat) (hlen : p.length = 256) (hp : ∀ b ∈ p, b < 256) :
    ∃ c, decode_62 (encode_62 p) = Except.ok (p, c) ∧
      decode_62_nibble (encode_62_checksum p) = Except.ok c ∧ c ^^^ c = 0 := by
  have hAlt := auxList_lt p
  have hSlt := sixList_lt p hp
  have hchainA : ∀ y ∈ chain 0 (auxList p), y < 64 := chain_lt_64 _ 0 (by omega) hAlt
  have hlA : lastFrom 0 (auxList p) < 64 := lastFrom_lt_64 _ 0 (by omega) hAlt
  have hchainS : ∀ y ∈ chain (lastFrom 0 (auxList p)) (sixList p), y < 64 :=
    chain_lt_64 _ _ hlA hSlt
  have h1 : decodeList ((encode_62 p).take 86) = some (chain 0 (auxList p)) := by
    rw [encode_62_take]
    exact decodeList_encode _ hchainA
  have h2 : decodeList ((encode_62 p).drop 86) =
      some (chain (lastFrom 0 (auxList p)) (sixList p)) := by
    rw [encode_62_drop]
    exact decodeList_encode _ hchainS
  have hspec := decode_62_spec (encode_62 p) _ _ h1 h2 (encode_62_length p hlen)
  have hrc1 : rcFinal 0 (chain 0 (auxList p)) = lastFrom 0 (auxList p) := by
    rw [rcFinal_chain]
    simp
  have hSne : sixList p ≠ [] := by
    intro h
    have := sixList_length p
    rw [h, hlen] at this
    simp at this
  have hlast : lastFrom (lastFrom 0 (auxList p)) (sixList p) = p.getD 255 0 >>> 2 := by
    rw [lastFrom_eq_getD _ _ hSne, sixList_length, hlen]
    exact sixList_getD p 255 (by omega)
  have hrcfin : rcFinal (lastFrom 0 (auxList p))
      (chain (lastFrom 0 (auxList p)) (sixList p)) = p.getD 255 0 >>> 2 := by
    rw [rcFinal_chain]
    simp [Nat.xor_self, hlast]
  have hcA : (chain 0 (auxList p)).length = 86 := by
    rw [chain_length, auxList_length]
  have hcS : (chain (lastFrom 0 (auxList p)) (sixList p)).length = 256 := by
    rw [chain_length, sixList_length, hlen]
  have ho1len : ((pass1Pure (List.replicate 256 0) 0 0 (chain 0 (auxList p))).1).length = 256 := by
    rw [pass1Pure_length, replicate256_length]
  have hout : ∀ j, j < 256 →
      ((pass2Pure (pass1Pure (List.replicate 256 0) 0 0 (chain 0 (auxList p))).1
        (rcFinal 0 (chain 0 (auxList p))) 0
        (chain (lastFrom 0 (auxList p)) (sixList p))).1).getD j 0 = p.getD j 0 := by
    intro j hj
    rw [pass2Pure_getD _ _ _ 0 j ho1len (by rw [hcS])]
    rw [if_pos ⟨by omega, by rw [hcS]; omega⟩]
    rw [hrc1]
    rw [pass1Pure_getD _ _ _ 0 j replicate256_length (by rw [hcA])]
    rw [getD_replicate256 j hj]
    simp only [hcA, Nat.zero_add, Nat.sub_zero]
    rw [rcAt_chain (sixList p) _ _ j (by rw [sixList_length, hlen]; omega)]
    rw [sixList_getD p j (by omega)]
    by_cases hj1 : j < 86
    · rw [if_pos ⟨Nat.zero_le j, hj1⟩, if_neg (by omega), if_neg (by omega)]
      rw [rcAt_chain (auxList p) _ _ j (by rw [auxList_length]; omega)]
      rw [auxList_getD p j hj1]
      simp only [Nat.xor_self, Nat.zero_xor, Nat.xor_zero]
      rw [(auxNibble_fields p j).2.1, swap_swap _ (and3_lt _)]
      exact and3_recompose _ (getD_lt_of_mem_lt p j hp)
    · by_cases hj2 : j < 172
      · rw [if_neg (by omega), if_pos ⟨by omega, by omega⟩, if_neg (by omega)]
        rw [rcAt_chain (auxList p) _ _ (j - 86) (by rw [auxList_length]; omega)]
        rw [auxList_getD p (j - 86) (by omega)]
        simp only [Nat.xor_self, Nat.zero_xor, Nat.xor_zero]
        rw [(auxNibble_fields p (j - 86)).2.2.1, show j - 86 + 86 = j by omega,
            swap_swap _ (and3_lt _)]
        exact and3_recompose _ (getD_lt_of_mem_lt p j hp)
      · rw [if_neg (by omega), if_neg (by omega), if_pos ⟨by omega, by omega⟩]
        rw [rcAt_chain (auxList p) _ _ (j - 86 * 2) (by rw [auxList_length]; omega)]
        rw [auxList_getD p (j - 86 * 2) (by omega)]
        simp only [Nat.xor_self, Nat.zero_xor, Nat.xor_zero]
        rw [(auxNibble_fields p (j - 86 * 2)).2.2.2, if_pos (by omega : j - 86 * 2 < 84),
            show j - 86 * 2 + 172 = j by omega, swap_swap _ (and3_lt _)]
        exact and3_recompose _ (getD_lt_of_mem_lt p j hp)
  have houtlen : ((pass2Pure (pass1Pure (List.replicate 256 0) 0 0 (chain 0 (auxList p))).1
      (rcFinal 0 (chain 0 (auxList p))) 0
      (chain (lastFrom 0 (auxList p)) (sixList p))).1).length = 256 := by
    rw [pass2Pure_length, ho1len]
  have houteq : (pass2Pure (pass1Pure (List.replicate 256 0) 0 0 (chain 0 (auxList p))).1
      (rcFinal 0 (chain 0 (auxList p))) 0
      (chain (lastFrom 0 (auxList p)) (sixList p))).1 = p := by
    apply List.ext_get (by rw [houtlen, hlen])
    intro n h1 h2
    have hn : n < 256 := by rw [houtlen] at h1; exact h1
    have := hout n hn
    rw [List.getD_eq_getElem _ 0 h1, List.getD_eq_getElem p 0 h2] at this
    exact this
  refine ⟨p.getD 255 0 >>> 2, ?_, ?_, Nat.xor_self _⟩
  · rw [hspec, houteq, hrc1, hrcfin]
  · rw [encode_62_checksum, preNibbles, lastFrom_append, hlast]
    exact decode_of_encode _ (shiftRight2_lt _ (getD_lt_of_mem_lt p 255 hp))

/-- Witness for C4 at the all-zero payload. -/
theorem c4_roundtrip_witness :
    ∃ c, decode_62 (encode_62 (List.replicate 256 0)) =
        Except.ok (List.replicate 256 0, c) ∧
      decode_62_nibble (encode_62_checksum (List.replicate 256 0)) = Except.ok c ∧
      c ^^^ c = 0 := by
  apply c4_roundtrip (List.replicate 256 0) (by rw [List.length_replicate])
  intro b hb
  rw [List.eq_of_mem_replicate hb]
  omega

end Woz

namespace Woz

/-- C5: one first-pass step of `decode_62` at step index `idx`: the 2-bit
contributions XORed into positions `idx` and `idx + 86` are bit-swapped
extracts of the updated running checksum; for `idx < 84` position
`idx + 172` also receives one, while for `idx ∈ {84, 85}` no position of
the third region (172 and above) is touched; and `swap_bits` exchanges
bit 0 and bit 1. -/
theorem c5_first_pass_step (o : List Nat) (rc d idx : Nat)
    (ho : o.length = 256) (hidx : idx < 86) :
    ((pass1Pure o rc idx [d]).2 = rc ^^^ d ∧
     (pass1Pure o rc idx [d]).1.getD idx 0 =
       o.getD idx 0 ^^^ swap_bits (((rc ^^^ d) >>> 0) &&& 0b11) ∧
     (pass1Pure o rc idx [d]).1.getD (idx + 86) 0 =
       o.getD (idx + 86) 0 ^^^ swap_bits (((rc ^^^ d) >>> 2) &&& 0b11) ∧
     (idx < 84 → (pass1Pure o rc idx [d]).1.getD (idx + 86 * 2) 0 =
       o.getD (idx + 86 * 2) 0 ^^^ swap_bits (((rc ^^^ d) >>> 4) &&& 0b11)) ∧
     (84 ≤ idx → ∀ j, 172 ≤ j → (pass1Pure o rc idx [d]).1.getD j 0 = o.getD j 0)) ∧
    (∀ b, b < 4 → (swap_bits b).testBit 0 = b.testBit 1 ∧
      (swap_bits b).testBit 1 = b.testBit 0) := by
  constructor
  · have hred : pass1Pure o rc idx [d] = (pass1Step o (rc ^^^ d) idx, rc ^^^ d) := rfl
    rw [hred]
    refine ⟨rfl, ?_, ?_, ?_, ?_⟩
    · rw [pass1Step_getD o _ idx idx ho hidx, if_pos rfl, if_neg (by omega),
          if_neg (by omega)]
      simp
    · rw [pass1Step_getD o _ idx (idx + 86) ho hidx, if_neg (by omega), if_pos rfl,
          if_neg (by omega)]
      simp
    · intro h84
      rw [pass1Step_getD o _ idx (idx + 86 * 2) ho hidx, if_neg (by omega),
          if_neg (by omega), if_pos ⟨rfl, h84⟩]
      simp
    · intro h84 j hj
      rw [pass1Step_getD o _ idx j ho hidx, if_neg (by omega), if_neg (by omega),
          if_neg (by omega)]
      simp
  · intro b hb
    interval_cases b <;> exact ⟨rfl, rfl⟩

/-- Witness for C5 at step index 85 on the zero bytearray. -/
theorem c5_first_pass_step_witness :
    (((pass1Pure (List.replicate 256 0) 0 85 [1]).2 = 0 ^^^ 1 ∧
      (pass1Pure (List.replicate 256 0) 0 85 [1]).1.getD 85 0 =
        (List.replicate 256 0).getD 85 0 ^^^ swap_bits (((0 ^^^ 1) >>> 0) &&& 0b11) ∧
      (pass1Pure (List.replicate 256 0) 0 85 [1]).1.getD (85 + 86) 0 =
        (List.replicate 256 0).getD (85 + 86) 0 ^^^ swap_bits (((0 ^^^ 1) >>> 2) &&& 0b11) ∧
      (85 < 84 → (pass1Pure (List.replicate 256 0) 0 85 [1]).1.getD (85 + 86 * 2) 0 =
        (List.replicate 256 0).getD (85 + 86 * 2) 0 ^^^ swap_bits (((0 ^^^ 1) >>> 4) &&& 0b11)) ∧
      (84 ≤ 85 → ∀ j, 172 ≤ j →
        (pass1Pure (List.replicate 256 0) 0 85 [1]).1.getD j 0 =
          (List.replicate 256 0).getD j 0)) ∧
     (∀ b, b < 4 → (swap_bits b).testBit 0 = b.testBit 1 ∧
       (swap_bits b).testBit 1 = b.testBit 0)) :=
  c5_first_pass_step (List.replicate 256 0) 0 1 85 (by rw [List.length_replicate]) (by omega)

theorem find_within_pair (a b x y : Nat) (rest : List Nat) (ha : a ≠ 0) :
    find_within [a, b] 2 (x :: y :: rest) =
      if x = a ∧ y = b then (.ok true, rest) else (.ok false, rest) := by
  rw [find_within]
  show findWithinAux [0, 0] [a, b] 2 (x :: y :: rest) = _
  rw [findWithinAux]
  rw [if_neg (by
    intro h
    simp at h
    exact ha h.1.symm)]
  rw [findWithinAux]
  by_cases hxy : x = a ∧ y = b
  · rw [if_pos (by simp [List.tail]; exact ⟨hxy.1, hxy.2⟩), if_pos hxy]
  · rw [if_neg (by
      intro h
      simp at h
      exact hxy ⟨h.1, h.2⟩), if_neg hxy]
    rw [findWithinAux]

theorem nextSector_addrOk (s : List Nat) :
    nextSector (tcDefault 0) (addrOkBlock ++ s) =
      addrEpilogueStep (tcDefault 0) 0 0 0 s := by
  rfl

set_option maxRecDepth 4000 in
/-- C3 (amended): with the default markers, the address-field epilogue
search in `next_sector` and the data-field epilogue search scan a sliding
window of at most 2 nibbles — they succeed exactly when the next two
nibbles are the marker's first two bytes, and fail with
`AddressEpilogueNotFound` / `DataEpilogueNotFound` otherwise; on success
one further nibble is consumed unconditionally. -/
theorem c3_amended (x y z : Nat) (rest : List Nat) :
    (¬(x = 0xde ∧ y = 0xaa) →
      nextSector (tcDefault 0) (addrOkBlock ++ x :: y :: rest) =
        (Except.error (DiskErr.addressEpilogueNotFound 0 0), rest)) ∧
    nextSector (tcDefault 0) (addrOkBlock ++ 0xde :: 0xaa :: z :: rest) =
      afterAddrEpilogue (tcDefault 0) 0 0 0 rest ∧
    (¬(x = 0xde ∧ y = 0xaa) →
      dataEpilogueStep (tcDefault 0) 0 0 0 zeros256 (x :: y :: rest) =
        (Except.error (DiskErr.dataEpilogueNotFound 0 0), rest)) ∧
    dataEpilogueStep (tcDefault 0) 0 0 0 zeros256 (0xde :: 0xaa :: z :: rest) =
      (Except.ok ⟨some 0, some 0, 0, zeros256⟩, rest) := by
  have hfw : ∀ (u v : Nat) (r : List Nat),
      find_within [0xde, 0xaa] 2 (u :: v :: r) =
        if u = 0xde ∧ v = 0xaa then (.ok true, r) else (.ok false, r) :=
    fun u v r => find_within_pair 0xde 0xaa u v r (by omega)
  refine ⟨?_, ?_, ?_, ?_⟩
  · intro h
    rw [nextSector_addrOk, addrEpilogueStep]
    show (match find_within [0xde, 0xaa] 2 (x :: y :: rest) with
      | (Except.error e, s') => (Except.error e, s')
      | (Except.ok false, s') => (Except.error (DiskErr.addressEpilogueNotFound 0 0), s')
      | (Except.ok true, s') =>
        match nextR s' with
        | (Except.error e, s'') => (Except.error e, s'')
        | (Except.ok _, s'') => afterAddrEpilogue (tcDefault 0) 0 0 0 s'') = _
    rw [hfw, if_neg h]
  · rw [nextSector_addrOk, addrEpilogueStep]
    show (match find_within [0xde, 0xaa] 2 (0xde :: 0xaa :: z :: rest) with
      | (Except.error e, s') => (Except.error e, s')
      | (Except.ok false, s') => (Except.error (DiskErr.addressEpilogueNotFound 0 0), s')
      | (Except.ok true, s') =>
        match nextR s' with
        | (Except.error e, s'') => (Except.error e, s'')
        | (Except.ok _, s'') => afterAddrEpilogue (tcDefault 0) 0 0 0 s'') = _
    rw [hfw, if_pos ⟨rfl, rfl⟩]
    rfl
  · intro h
    rw [dataEpilogueStep]
    show (match find_within [0xde, 0xaa] 2 (x :: y :: rest) with
      | (Except.error e, s') => (Except.error e, s')
      | (Except.ok false, s') => (Except.error (DiskErr.dataEpilogueNotFound 0 0), s')
      | (Except.ok true, s') =>
        match nextR s' with
        | (Except.error e, s'') => (Except.error e, s'')
        | (Except.ok _, s'') =>
          match Sector.init (some 0) (some 0) 0 (some zeros256) with
          | Except.error e => (Except.error e, s'')
          | Except.ok sec => (Except.ok sec, s'')) = _
    rw [hfw, if_neg h]
  · rw [dataEpilogueStep]
    show (match find_within [0xde, 0xaa] 2 (0xde :: 0xaa :: z :: rest) with
      | (Except.error e, s') => (Except.error e, s')
      | (Except.ok false, s') => (Except.error (DiskErr.dataEpilogueNotFound 0 0), s')
      | (Except.ok true, s') =>
        match nextR s' with
        | (Except.error e, s'') => (Except.error e, s'')
        | (Except.ok _, s'') =>
          match Sector.init (some 0) (some 0) 0 (some zeros256) with
          | Except.error e => (Except.error e, s'')
          | Except.ok sec => (Except.ok sec, s'')) = _
    rw [hfw, if_pos ⟨rfl, rfl⟩]
    rfl

/-- Witness for the amended C3 at concrete junk nibbles. -/
theorem c3_amended_witness :
    nextSector (tcDefault 0) (addrOkBlock ++ 1 :: 2 :: []) =
        (Except.error (DiskErr.addressEpilogueNotFound 0 0), []) ∧
    dataEpilogueStep (tcDefault 0) 0 0 0 zeros256 (1 :: 2 :: []) =
        (Except.error (DiskErr.dataEpilogueNotFound 0 0), []) := by
  refine ⟨(c3_amended 1 2 0 []).1 (by omega), ((c3_amended 1 2 0 []).2.2.1) (by omega)⟩

end Woz

namespace Woz

theorem sectorsFuel_eq_onTrace (tc : TrackCfg) : ∀ fuel secs s,
    sectorsFuel tc fuel secs s = sectorsOnTrace (attemptsOf tc fuel s) secs := by
  intro fuel
  induction fuel with
  | zero => intro secs s; rfl
  | succ fuel ih =>
    intro secs s
    rcases hns : nextSector tc s with ⟨res, s'⟩
    rcases res with e | sec
    · by_cases hse : isSectorException e
      · simp only [sectorsFuel, attemptsOf, hns, sectorsOnTrace, if_pos hse]
        split
        · rfl
        · exact ih _ s'
      · simp only [sectorsFuel, attemptsOf, hns, sectorsOnTrace, if_neg hse]
    · simp only [sectorsFuel, attemptsOf, hns, sectorsOnTrace]
      split
      · rfl
      · exact ih _ s'

theorem sectorsOnTrace_char : ∀ (tr : List Outcome) (secs m : List (Nat × Option SectorD)),
    sectorsOnTrace tr secs = some (.ok m) →
    ∃ k, k < tr.length ∧
      m = secs ++ (tr.take k).map outEntry ∧
      (∀ i, i < k → alookup (secs ++ ((tr.take i).map outEntry))
        (outNum (tr.getD i (Outcome.err DiskErr.streamEnd))) = none) ∧
      (alookup m (outNum (tr.getD k (Outcome.err DiskErr.streamEnd)))).isSome = true := by
  intro tr
  induction tr with
  | nil =>
    intro secs m h
    exact absurd h (by rw [sectorsOnTrace]; simp)
  | cons o rest ih =>
    intro secs m h
    rcases o with sec | e
    · rw [sectorsOnTrace] at h
      by_cases hl : (alookup secs sec.sector_num).isSome
      · rw [if_pos hl] at h
        simp only [Option.some.injEq, Except.ok.injEq] at h
        subst h
        refine ⟨0, by simp, by simp, by omega, ?_⟩
        simpa [outNum] using hl
      · rw [if_neg hl] at h
        obtain ⟨k, hk, hm, hprev, hstop⟩ := ih (secs ++ [(sec.sector_num, some sec)]) m h
        refine ⟨k + 1, by simpa using hk, ?_, ?_, ?_⟩
        · rw [hm, List.take_succ_cons, List.map_cons, List.append_assoc]
          rfl
        · intro i hi
          cases i with
          | zero =>
            simpa [outNum] using Option.not_isSome_iff_eq_none.1 hl
          | succ i =>
            have := hprev i (by omega)
            rw [List.take_succ_cons, List.map_cons, List.getD_cons_succ]
            rw [List.append_assoc] at this
            exact this
        · rw [List.getD_cons_succ]
          exact hstop
    · rw [sectorsOnTrace] at h
      by_cases hse : isSectorException e
      · rw [if_pos hse] at h
        by_cases hl : (alookup secs (sectorOf e)).isSome
        · rw [if_pos hl] at h
          simp only [Option.some.injEq, Except.ok.injEq] at h
          subst h
          refine ⟨0, by simp, by simp, by omega, ?_⟩
          simpa [outNum] using hl
        · rw [if_neg hl] at h
          obtain ⟨k, hk, hm, hprev, hstop⟩ := ih (secs ++ [(sectorOf e, none)]) m h
          refine ⟨k + 1, by simpa using hk, ?_, ?_, ?_⟩
          · rw [hm, List.take_succ_cons, List.map_cons, List.append_assoc]
            rfl
          · intro i hi
            cases i with
            | zero =>
              simpa [outNum] using Option.not_isSome_iff_eq_none.1 hl
            | succ i =>
              have := hprev i (by omega)
              rw [List.take_succ_cons, List.map_cons, List.getD_cons_succ]
              rw [List.append_assoc] at this
              exact this
          · rw [List.getD_cons_succ]
            exact hstop
      · rw [if_neg hse] at h
        exact absurd h (by simp)

/-- C1 (amended): whenever the track-scan loop returns a map, there is an
attempt index `k` such that every attempt before `k` carried a fresh sector
number and was inserted into the map (the decoded sector for successes, an
empty `None` placeholder for recoverable failures — so failures do change
the map), and attempt `k` — successful or failed alike — repeated a sector
number already present, which is the stopping condition. -/
theorem c1_amended (tc : TrackCfg) (fuel : Nat) (s : List Nat)
    (m : List (Nat × Option SectorD))
    (h : sectorsFuel tc fuel [] s = some (Except.ok m)) :
    ∃ k, k < (attemptsOf tc fuel s).length ∧
      m = ((attemptsOf tc fuel s).take k).map outEntry ∧
      (∀ i, i < k → alookup (((attemptsOf tc fuel s).take i).map outEntry)
        (outNum ((attemptsOf tc fuel s).getD i (Outcome.err DiskErr.streamEnd))) = none) ∧
      (alookup m
        (outNum ((attemptsOf tc fuel s).getD k (Outcome.err DiskErr.streamEnd)))).isSome = true := by
  rw [sectorsFuel_eq_onTrace] at h
  obtain ⟨k, hk, hm, hprev, hstop⟩ := sectorsOnTrace_char _ [] m h
  exact ⟨k, hk, by simpa using hm, fun i hi => by simpa using hprev i hi, hstop⟩

/-- Witness for the amended C1 on the concrete double-`TrackMismatch`
stream. -/
theorem c1_amended_witness :
    ∃ k, k < (attemptsOf (tcDefault 0) 3 c1Stream).length ∧
      [(3, (none : Option SectorD))] =
        ((attemptsOf (tcDefault 0) 3 c1Stream).take k).map outEntry ∧
      (∀ i, i < k →
        alookup (((attemptsOf (tcDefault 0) 3 c1Stream).take i).map outEntry)
          (outNum ((attemptsOf (tcDefault 0) 3 c1Stream).getD i
            (Outcome.err DiskErr.streamEnd))) = none) ∧
      (alookup [(3, (none : Option SectorD))]
        (outNum ((attemptsOf (tcDefault 0) 3 c1Stream).getD k
          (Outcome.err DiskErr.streamEnd)))).isSome = true :=
  c1_amended (tcDefault 0) 3 c1Stream [(3, none)] (by rfl)

end Woz

namespace Woz

theorem flatten_length_uniform (n : Nat) : ∀ (L : List (List Nat)),
    (∀ c ∈ L, c.length = n) → L.flatten.length = L.length * n := by
  intro L
  induction L with
  | nil => intro _; simp
  | cons c t ih =>
    intro h
    rw [List.flatten_cons, List.length_append, ih (fun x hx => h x (by simp [hx])),
        h c (by simp), List.length_cons]
    ring

theorem flatten_drop_chunk (n : Nat) : ∀ (L : List (List Nat)) (i : Nat),
    (∀ c ∈ L, c.length = n) → i < L.length →
    L.flatten.drop (i * n) = L.getD i [] ++ (L.drop (i + 1)).flatten := by
  intro L
  induction L with
  | nil => intro i _ hi; exact absurd hi (by simp)
  | cons c t ih =>
    intro i h hi
    cases i with
    | zero => simp [List.flatten_cons]
    | succ i =>
      rw [List.flatten_cons, show (i + 1) * n = c.length + i * n by rw [h c (by simp)]; ring]
      rw [← List.drop_drop, List.drop_left]
      rw [ih i (fun x hx => h x (by simp [hx])) (by simpa using hi)]
      rfl

theorem take_append_left (l1 l2 : List Nat) (n : Nat) (h : l1.length = n) :
    (l1 ++ l2).take n = l1 := by
  rw [List.take_append_of_le_length (by omega), ← h, List.take_length]

theorem take_drop_append (l1 l2 : List Nat) (k n : Nat) (h : k + n ≤ l1.length) :
    ((l1 ++ l2).drop k).take n = (l1.drop k).take n := by
  rw [List.drop_append_of_le_length (by omega)]
  rw [List.take_append_of_le_length (by rw [List.length_drop]; omega)]

theorem getD_map_range (f : Nat → List Nat) (n t : Nat) (h : t < n) :
    ((List.range n).map f).getD t [] = f t := by
  rw [List.getD_eq_getElem _ [] (by rw [List.length_map, List.length_range]; omega),
      List.getElem_map]
  congr 1
  simp

theorem getD_map_dos (f : Nat → List Nat) (i : Nat) (h : i < 16) :
    (DOS_33_ORDER.map f).getD i [] = f (DOS_33_ORDER.getD i 0) := by
  have hlen : DOS_33_ORDER.length = 16 := rfl
  rw [List.getD_eq_getElem _ [] (by rw [List.length_map, hlen]; omega), List.getElem_map]
  congr 1
  rw [List.getD_eq_getElem _ 0 (by rw [hlen]; omega)]

theorem emitSector_cases (secs : List (Nat × Option SectorD)) (track_num sector_num : Nat) :
    emitSector secs track_num sector_num =
      match alookup secs sector_num with
      | some (some sec) => sec.data
      | _ => List.replicate 256 0 := by
  rw [emitSector]
  rcases h : alookup secs sector_num with _ | osec
  · rfl
  · rcases osec with _ | sec <;> rfl

theorem emitSector_length (secs : List (Nat × Option SectorD)) (track_num sector_num : Nat)
    (H : ∀ k sec, alookup secs k = some (some sec) → sec.data.length = 256) :
    (emitSector secs track_num sector_num).length = 256 := by
  rw [emitSector_cases]
  rcases h : alookup secs sector_num with _ | osec
  · rw [List.length_replicate]
  · rcases osec with _ | sec
    · rw [List.length_replicate]
    · exact H _ sec h

/-- C6: for each physical track `t < 35` and logical slot `i < 16`, the
assembled image carries, at offset `t * 4096 + i * 256`, the 256-byte
payload of the decoded sector numbered `DOS_33_ORDER[i]` of that track's
map when present, and 256 zero bytes otherwise; the whole image is exactly
`35 * 16 * 256 = 143360` bytes for every input. -/
theorem c6_assembler (disk : Nat → Option (List (Nat × Option SectorD)))
    (H : ∀ t m k sec, disk t = some m → alookup m k = some (some sec) →
      sec.data.length = 256) :
    (imageBytes disk).length = 143360 ∧
    ∀ t, t < 35 → ∀ i, i < 16 →
      ((imageBytes disk).drop (t * 4096 + i * 256)).take 256 =
        (match alookup (match disk t with | some m => m | none => [])
            (DOS_33_ORDER.getD i 0) with
         | some (some sec) => sec.data
         | _ => List.replicate 256 0) := by
  have Hm : ∀ t k sec,
      alookup (match disk t with | some m => m | none => []) k = some (some sec) →
      sec.data.length = 256 := by
    intro t k sec h
    rcases hd : disk t with _ | m
    · rw [hd] at h
      exact absurd h (by rw [alookup]; simp)
    · rw [hd] at h
      exact H t m k sec hd h
  have hslots : ∀ t, ∀ c ∈ DOS_33_ORDER.map
      (emitSector (match disk t with | some m => m | none => []) t), c.length = 256 := by
    intro t c hc
    obtain ⟨sn, _, hsn⟩ := List.mem_map.1 hc
    rw [← hsn]
    exact emitSector_length _ t sn (Hm t)
  have hslotlen : ∀ t, (DOS_33_ORDER.map
      (emitSector (match disk t with | some m => m | none => []) t)).length = 16 := by
    intro t
    rw [List.length_map]
    rfl
  have htrack : ∀ t, (writeTrackBytes (match disk t with | some m => m | none => []) t).length = 4096 := by
    intro t
    rw [writeTrackBytes, flatten_length_uniform 256 _ (hslots t), hslotlen]
  have htracks : ∀ c ∈ (List.range 35).map (fun t =>
      writeTrackBytes (match disk t with | some m => m | none => []) t), c.length = 4096 := by
    intro c hc
    obtain ⟨t, _, ht⟩ := List.mem_map.1 hc
    rw [← ht]
    exact htrack t
  constructor
  · rw [imageBytes, flatten_length_uniform 4096 _ htracks, List.length_map,
        List.length_range]
  · intro t ht i hi
    rw [← List.drop_drop]
    rw [imageBytes]
    rw [flatten_drop_chunk 4096 _ t htracks (by rw [List.length_map, List.length_range]; omega)]
    rw [getD_map_range _ 35 t ht]
    rw [take_drop_append _ _ _ _ (by rw [htrack t]; omega)]
    rw [writeTrackBytes]
    rw [flatten_drop_chunk 256 _ i (hslots t) (by rw [hslotlen]; omega)]
    rw [getD_map_dos _ i hi]
    rw [take_append_left _ _ 256 (emitSector_length _ t _ (Hm t))]
    exact emitSector_cases _ t _

end Woz

namespace Woz

/-- Witness for C6 on the all-missing disk. -/
theorem c6_assembler_witness :
    (imageBytes fun _ => none).length = 143360 ∧
    ∀ t, t < 35 → ∀ i, i < 16 →
      ((imageBytes fun _ => none).drop (t * 4096 + i * 256)).take 256 =
        List.replicate 256 0 :=
  c6_assembler (fun _ => none) (fun t m k sec hd => absurd hd (by simp))

theorem mainExit_fold (disk : Nat → Option (List Outcome)) : ∀ (l : List Nat) (e : Bool),
    (∀ t ∈ l, (trackStatus disk t).isSome) →
    l.foldl (fun acc t =>
      match acc, trackStatus disk t with
      | some e, some d => some (e || d)
      | _, _ => none) (some e) =
      some (e || l.any fun t => trackStatus disk t == some true) := by
  intro l
  induction l with
  | nil => intro e _; simp
  | cons t l' ih =>
    intro e h
    rcases hts : trackStatus disk t with _ | d
    · exact absurd (h t (by simp)) (by rw [hts]; simp)
    · rw [List.foldl_cons]
      have hstep : (match (some e : Option Bool), trackStatus disk t with
          | some e, some d => some (e || d)
          | _, _ => none) = some (e || d) := by
        rw [hts]
      rw [hstep, ih (e || d) (fun x hx => h x (by simp [hx]))]
      rw [List.any_cons, hts]
      cases d <;> simp [Bool.or_assoc]

theorem mainExit_eq (disk : Nat → Option (List Outcome))
    (h : ∀ t ∈ List.range 35, (trackStatus disk t).isSome) :
    mainExitErrorsO disk =
      some ((List.range 35).any fun t => trackStatus disk t == some true) := by
  rw [mainExitErrorsO, mainExit_fold disk (List.range 35) false h, Bool.false_or]

/-- C8 (amended): for a run in which every track scan yields a verdict, the
exit status is nonzero exactly when some track is missing or some
completed track's map leaves a slot without a successfully decoded sector
(`trackDefect`); recoverable failures as such do not make the exit status
nonzero. -/
theorem c8_amended (disk : Nat → Option (List Outcome))
    (h : ∀ t, t < 35 → (trackStatus disk t).isSome) :
    ∃ b, mainExitErrorsO disk = some b ∧
      (b = true ↔ ∃ t, t < 35 ∧ (disk t = none ∨
        ∃ tr m, disk t = some tr ∧ sectorsOnTrace tr [] = some (Except.ok m) ∧
          trackDefect m = true)) := by
  refine ⟨(List.range 35).any fun t => trackStatus disk t == some true,
    mainExit_eq disk (fun t ht => h t (List.mem_range.1 ht)), ?_⟩
  constructor
  · intro hb
    obtain ⟨t, htmem, hp⟩ := List.any_eq_true.1 hb
    have hts : trackStatus disk t = some true := eq_of_beq hp
    refine ⟨t, List.mem_range.1 htmem, ?_⟩
    rcases hd : disk t with _ | tr
    · exact Or.inl rfl
    · right
      simp only [trackStatus, hd] at hts
      rcases hs : sectorsOnTrace tr [] with _ | res
      · rw [hs] at hts
        exact absurd hts (by simp)
      · rcases res with e | m
        · rw [hs] at hts
          exact absurd hts (by simp)
        · rw [hs] at hts
          simp only [Option.some.injEq] at hts
          exact ⟨tr, m, rfl, hs, hts⟩
  · intro hcase
    obtain ⟨t, ht, hc⟩ := hcase
    apply List.any_eq_true.2
    refine ⟨t, List.mem_range.2 ht, ?_⟩
    rcases hc with hd | ⟨tr, m, hd, hsot, hdef⟩
    · have : trackStatus disk t = some true := by
        simp only [trackStatus, hd]
      rw [this]
      rfl
    · have : trackStatus disk t = some true := by
        simp only [trackStatus, hd, hsot, hdef]
      rw [this]
      rfl

/-- Witness for the amended C8 on the all-missing disk. -/
theorem c8_amended_witness :
    ∃ b, mainExitErrorsO (fun _ => none) = some b ∧
      (b = true ↔ ∃ t, t < 35 ∧ ((none : Option (List Outcome)) = none ∨
        ∃ tr m, (none : Option (List Outcome)) = some tr ∧
          sectorsOnTrace tr [] = some (Except.ok m) ∧ trackDefect m = true)) :=
  c8_amended (fun _ => none) (fun _ _ => rfl)

end Woz

namespace Woz

/-- C1 (counterexample): on a stream of two identical `TrackMismatch(0,1,3)`
failures, the scan loop stops at the second failure — a failed read whose
exception carries an already-seen sector number is also a stopping
condition — and the returned map contains the entry `(3, none)` inserted
by the first failure; this refutes both "the loop continues without
changing the map" on recoverable failures and "a successful read returning
a repeated sector number is the only stopping condition". -/
theorem c1_cex :
    sectorsFuel (tcDefault 0) 3 [] c1Stream = some (Except.ok [(3, none)]) := by
  rfl

set_option maxRecDepth 100000 in
/-- C2 (code bug): on a stream whose sector read is valid through the
342-nibble data field but whose trailing checksum nibble (`0x00`) is
outside the 6-and-2 alphabet, `decode_62_nibble` at `next_sector`'s
checksum comparison raises the raw `InvalidDataNibble` — which is not a
`SectorException` — so it escapes the `Track.sectors` loop and aborts the
track instead of being treated as a sector-recoverable failure. -/
theorem c2_trailing_nibble_aborts :
    sectorsFuel (tcDefault 0) 1 [] c2Stream =
      some (Except.error (DiskErr.invalidDataNibble 0)) ∧
    isSectorException (DiskErr.invalidDataNibble 0) = false := by
  exact ⟨by rfl, rfl⟩

/-- C3 (counterexample): with one garbage nibble before the marker, the
epilogue's first two bytes lie within 20 nibbles of the cursor — a
20-nibble `find_within` search finds them — yet `next_sector` fails with
`AddressEpilogueNotFound`, and the data-field epilogue step likewise fails
with `DataEpilogueNotFound`, because the code's search window is 2
nibbles, not 20. -/
theorem c3_cex :
    (nextSector (tcDefault 0) c3Stream).1 =
      Except.error (DiskErr.addressEpilogueNotFound 0 0) ∧
    (find_within [0xde, 0xaa] 20 [0x01, 0xde, 0xaa]).1 = Except.ok true ∧
    (dataEpilogueStep (tcDefault 0) 0 0 0 zeros256 [0x01, 0xde, 0xaa]).1 =
      Except.error (DiskErr.dataEpilogueNotFound 0 0) := by
  exact ⟨rfl, rfl, rfl⟩

/-- C7 (counterexample): `decode_44` keeps the even-indexed (0-based) bits
of its inputs and masks out the odd ones: on `hi = 1` (only bit 0 set) and
`lo = 0` the result is 2, whereas masking out the even bits as the claim
states gives 0; moreover result bit 0 is 0 although `hi`'s bit 0 is 1, so
result bit `2k` does not come from `hi`. -/
theorem c7_cex :
    decode_44 1 0 = 2 ∧ decode_44_claimed 1 0 = 0 ∧
    decode_44 1 0 ≠ decode_44_claimed 1 0 ∧
    (decode_44 1 0).testBit 0 = false ∧ (1 : Nat).testBit 0 = true := by
  exact ⟨rfl, rfl, by decide, rfl, rfl⟩

/-- C7 (amended): `decode_44` is a total deterministic function of its two
inputs; every odd-indexed (0-based) bit of `hi` and `lo` is masked out
before combining, and `hi` contributes the high bit of each result bit
pair while `lo` contributes the low bit: result bit `2k+1` equals `hi`'s
bit `2k` and result bit `2k` equals `lo`'s bit `2k`, for `k < 4`. -/
theorem c7_amended (xx yy k : Nat) (hk : k < 4) :
    ((decode_44 xx yy).testBit (2 * k + 1) = xx.testBit (2 * k) ∧
     (decode_44 xx yy).testBit (2 * k) = yy.testBit (2 * k)) ∧
    decode_44 (xx &&& 0b01010101) (yy &&& 0b01010101) = decode_44 xx yy := by
  have hd : decode_44 xx yy = 2 * (xx &&& 0b01010101) + (yy &&& 0b01010101) := by
    rw [decode_44, Nat.shiftLeft_eq]
    ring
  obtain ⟨h1, h2⟩ := testBit_two_mul_add k (xx &&& 0b01010101) (yy &&& 0b01010101)
    (and85_odd_bits xx) (and85_odd_bits yy)
  refine ⟨⟨?_, ?_⟩, ?_⟩
  · rw [hd, h1, Nat.testBit_and]
    have : (0b01010101 : Nat).testBit (2 * k) = true := by
      interval_cases k <;> decide
    rw [this, Bool.and_true]
  · rw [hd, h2, Nat.testBit_and]
    have : (0b01010101 : Nat).testBit (2 * k) = true := by
      interval_cases k <;> decide
    rw [this, Bool.and_true]
  · simp [decode_44, Nat.and_assoc]

/-- Witness for the amended C7 at `hi = 0x55`, `lo = 0x0f`, `k = 0`. -/
theorem c7_amended_witness :
    (((decode_44 0x55 0x0f).testBit (2 * 0 + 1) = (0x55 : Nat).testBit (2 * 0) ∧
      (decode_44 0x55 0x0f).testBit (2 * 0) = (0x0f : Nat).testBit (2 * 0)) ∧
     decode_44 (0x55 &&& 0b01010101) (0x0f &&& 0b01010101) = decode_44 0x55 0x0f) :=
  c7_amended 0x55 0x0f 0 (by omega)

set_option maxRecDepth 4000 in
/-- C10: the `Sector` constructor raises `ValueError` exactly when the
supplied data buffer is non-empty and its length differs from 256; an
empty buffer does not raise and silently yields a payload of 256 zero
bytes (as does `None`). -/
theorem c10_sector_ctor : ∀ (v t : Option Nat) (sn : Nat) (d : List Nat),
    (Sector.init v t sn (some d) = .error .valueError ↔ d ≠ [] ∧ d.length ≠ 256) ∧
    Sector.init v t sn (some []) = .ok ⟨v, t, sn, List.replicate 256 0⟩ ∧
    Sector.init v t sn none = .ok ⟨v, t, sn, List.replicate 256 0⟩ := by
  intro v t sn d
  refine ⟨?_, rfl, rfl⟩
  by_cases hd : d = []
  · subst hd
    simp [Sector.init]
  · by_cases hl : d.length = 256
    · simp [Sector.init, hd, hl]
    · simp [Sector.init, hd, hl]

/-- C8 (counterexample): on `c8Disk`, every track decodes all 16 sectors
and then hits a recoverable `TrackMismatch` failure whose sector number
repeats an already-read sector, ending the revolution; a recoverable
failure is therefore reported on every track, yet the scan loop completes
every track, the `errors` flag stays false, and the process exits 0 —
refuting "nonzero iff at least one recoverable failure, missing sector,
or missing track occurred". -/
theorem c8_cex :
    mainExitErrorsO c8Disk = some false ∧
    (c8Trace.any fun o => match o with
      | .err e => isSectorException e
      | _ => false) = true ∧
    c8Trace.getLast? = some (Outcome.err (DiskErr.trackMismatch 0 1 0)) ∧
    (sectorsOnTrace c8Trace []).isSome = true := by
  exact ⟨by rfl, by rfl, by rfl, by rfl⟩

end Woz
